import Mathlib

/-!
Verification of the C++-to-Rust binding generator core.

This development shallowly embeds the generator's data model and the
algorithms of `CGenerator` (`src/cpp_ffi_generator.rs`): the inheritance
resolver (`get_all_methods`, `get_pure_virtual_methods`), the abstract-class
computation of `generate_all`, the per-header method pipeline
(`process_methods`: eligibility filter, grouping by computed base name,
caption-strategy disambiguation, final sort by symbol name), the
include-file base-name derivation, and the build-configuration merge
(`CppBuildConfig::eval` with `CppBuildConfigData::add_from`).

Modelling conventions:
- Rust strings are Lean `String`s (the include-file base name computation is
  additionally modelled on `List Char`, the byte/char distinction being
  immaterial for the ASCII suffix involved).
- Machine integers that never overflow in the modelled code are `Int`/`Nat`.
- The unbounded recursion of the inheritance resolver (which has no cycle
  guard in the source) is modelled with explicit fuel; fuel exhaustion is an
  `Except.error`, as is each `panic!` of the source.
- `HashMap` iteration order is nondeterministic in Rust; the embedding
  builds the map as an insertion-ordered association list and takes the
  iteration order as an explicit parameter constrained to be a permutation.
- Rust's stable sorts (`Vec::sort`, `Vec::sort_by`) are modelled by
  `List.insertionSort`, which is also stable, over a structurally computable
  lexicographic string order `strLe` (agreeing with Rust's byte-wise string
  order on valid UTF-8).
- Code of the repository that is not under `src/` (the external
  `to_ffi_signatures`, `c_base_name`, `caption` operations and the strategy
  list of `caption_strategy.rs`, and the target-condition evaluation of
  `target.rs`) enters as parameters or is modelled from the spec; such
  definitions carry a `Modelled from the spec:` note.
- Documentation-only fields (`doc`, `origin_location`, `declaration_code`)
  are omitted from the data model; they do not affect generation.
-/

/-! ## Type algebra (IR), following `serializable.in.rs` -/

/-- C++ type variants based on indirection. -/
inductive CppTypeIndirection where
  | None
  | Ptr
  | Ref
  | PtrRef
  | PtrPtr
  | RValueRef
deriving DecidableEq

/-- Available built-in C++ numeric types. -/
inductive CppBuiltInNumericType where
  | Bool
  | Char
  | SChar
  | UChar
  | WChar
  | Char16
  | Char32
  | Short
  | UShort
  | Int
  | UInt
  | Long
  | ULong
  | LongLong
  | ULongLong
  | Int128
  | UInt128
  | Float
  | Double
  | LongDouble
deriving DecidableEq

/-- Information about a fixed-size primitive type. -/
inductive CppSpecificNumericTypeKind where
  | Integer (is_signed : Bool)
  | FloatingPoint
deriving DecidableEq

mutual

/-- Information about a C++ type: a base type plus indirection and
constness. The mutual block encodes the nested recursion of the source
(`Class` template arguments and `FunctionPointer` components are themselves
full types) with dedicated list/option carriers so that structural
recursion, and hence kernel computation, is available. -/
inductive CppType where
  | mk (base : CppTypeBase) (indirection : CppTypeIndirection)
      (is_const : Bool) (is_const2 : Bool)

/-- Base C++ type (the tagged variant of `CppType`). -/
inductive CppTypeBase where
  | Void
  | BuiltInNumeric (t : CppBuiltInNumericType)
  | SpecificNumeric (name : String) (bits : Int) (kind : CppSpecificNumericTypeKind)
  | PointerSizedInteger (name : String) (is_signed : Bool)
  | Enum (name : String)
  | Class (name : String) (template_arguments : CppTypeArgsOpt)
  | TemplateParameter (nested_level : Int) (index : Int)
  | FunctionPointer (return_type : CppType) (arguments : CppTypeList)
      (allows_variadic_arguments : Bool)

/-- Optional template-argument list (encoding of `Option (List CppType)`). -/
inductive CppTypeArgsOpt where
  | none
  | some (args : CppTypeList)

/-- List of C++ types (encoding of `List CppType`). -/
inductive CppTypeList where
  | nil
  | cons (head : CppType) (tail : CppTypeList)

end

mutual

def decEqCppType : (a b : CppType) → Decidable (a = b)
  | CppType.mk b1 i1 c1 d1, CppType.mk b2 i2 c2 d2 =>
    match decEqCppTypeBase b1 b2 with
    | Decidable.isTrue hb =>
      if hi : i1 = i2 then
        if hc : c1 = c2 then
          if hd : d1 = d2 then Decidable.isTrue (by rw [hb, hi, hc, hd])
          else Decidable.isFalse (fun h => by injection h; exact hd (by assumption))
        else Decidable.isFalse (fun h => by injection h; exact hc (by assumption))
      else Decidable.isFalse (fun h => by injection h; exact hi (by assumption))
    | Decidable.isFalse hb =>
      Decidable.isFalse (fun h => by injection h; exact hb (by assumption))
termination_by structural a => a

def decEqCppTypeBase : (a b : CppTypeBase) → Decidable (a = b)
  | CppTypeBase.Void, CppTypeBase.Void => Decidable.isTrue rfl
  | CppTypeBase.BuiltInNumeric t1, CppTypeBase.BuiltInNumeric t2 =>
    if h : t1 = t2 then Decidable.isTrue (by rw [h])
    else Decidable.isFalse (fun e => by injection e; exact h (by assumption))
  | CppTypeBase.SpecificNumeric n1 b1 k1, CppTypeBase.SpecificNumeric n2 b2 k2 =>
    if h : n1 = n2 then
      if h2 : b1 = b2 then
        if h3 : k1 = k2 then Decidable.isTrue (by rw [h, h2, h3])
        else Decidable.isFalse (fun e => by injection e; exact h3 (by assumption))
      else Decidable.isFalse (fun e => by injection e; exact h2 (by assumption))
    else Decidable.isFalse (fun e => by injection e; exact h (by assumption))
  | CppTypeBase.PointerSizedInteger n1 s1, CppTypeBase.PointerSizedInteger n2 s2 =>
    if h : n1 = n2 then
      if h2 : s1 = s2 then Decidable.isTrue (by rw [h, h2])
      else Decidable.isFalse (fun e => by injection e; exact h2 (by assumption))
    else Decidable.isFalse (fun e => by injection e; exact h (by assumption))
  | CppTypeBase.Enum n1, CppTypeBase.Enum n2 =>
    if h : n1 = n2 then Decidable.isTrue (by rw [h])
    else Decidable.isFalse (fun e => by injection e; exact h (by assumption))
  | CppTypeBase.Class n1 a1, CppTypeBase.Class n2 a2 =>
    if h : n1 = n2 then
      match decEqCppTypeArgsOpt a1 a2 with
      | Decidable.isTrue ha => Decidable.isTrue (by rw [h, ha])
      | Decidable.isFalse ha =>
        Decidable.isFalse (fun e => by injection e; exact ha (by assumption))
    else Decidable.isFalse (fun e => by injection e; exact h (by assumption))
  | CppTypeBase.TemplateParameter l1 x1, CppTypeBase.TemplateParameter l2 x2 =>
    if h : l1 = l2 then
      if h2 : x1 = x2 then Decidable.isTrue (by rw [h, h2])
      else Decidable.isFalse (fun e => by injection e; exact h2 (by assumption))
    else Decidable.isFalse (fun e => by injection e; exact h (by assumption))
  | CppTypeBase.FunctionPointer r1 as1 v1, CppTypeBase.FunctionPointer r2 as2 v2 =>
    match decEqCppType r1 r2 with
    | Decidable.isTrue hr =>
      match decEqCppTypeList as1 as2 with
      | Decidable.isTrue ha =>
        if hv : v1 = v2 then Decidable.isTrue (by rw [hr, ha, hv])
        else Decidable.isFalse (fun e => by injection e; exact hv (by assumption))
      | Decidable.isFalse ha =>
        Decidable.isFalse (fun e => by injection e; exact ha (by assumption))
    | Decidable.isFalse hr =>
      Decidable.isFalse (fun e => by injection e; exact hr (by assumption))
  | CppTypeBase.Void, CppTypeBase.BuiltInNumeric _ => Decidable.isFalse (fun e => by injection e)
  | CppTypeBase.Void, CppTypeBase.SpecificNumeric _ _ _ => Decidable.isFalse (fun e => by injection e)
  | CppTypeBase.Void, CppTypeBase.PointerSizedInteger _ _ => Decidable.isFalse (fun e => by injection e)
  | CppTypeBase.Void, CppTypeBase.Enum _ => Decidable.isFalse (fun e => by injection e)
  | CppTypeBase.Void, CppTypeBase.Class _ _ => Decidable.isFalse (fun e => by injection e)
  | CppTypeBase.Void, CppTypeBase.TemplateParameter _ _ => Decidable.isFalse (fun e => by injection e)
  | CppTypeBase.Void, CppTypeBase.FunctionPointer _ _ _ => Decidable.isFalse (fun e => by injection e)
  | CppTypeBase.BuiltInNumeric _, CppTypeBase.Void => Decidable.isFalse (fun e => by injection e)
  | CppTypeBase.BuiltInNumeric _, CppTypeBase.SpecificNumeric _ _ _ => Decidable.isFalse (fun e => by injection e)
  | CppTypeBase.BuiltInNumeric _, CppTypeBase.PointerSizedInteger _ _ => Decidable.isFalse (fun e => by injection e)
  | CppTypeBase.BuiltInNumeric _, CppTypeBase.Enum _ => Decidable.isFalse (fun e => by injection e)
  | CppTypeBase.BuiltInNumeric _, CppTypeBase.Class _ _ => Decidable.isFalse (fun e => by injection e)
  | CppTypeBase.BuiltInNumeric _, CppTypeBase.TemplateParameter _ _ => Decidable.isFalse (fun e => by injection e)
  | CppTypeBase.BuiltInNumeric _, CppTypeBase.FunctionPointer _ _ _ => Decidable.isFalse (fun e => by injection e)
  | CppTypeBase.SpecificNumeric _ _ _, CppTypeBase.Void => Decidable.isFalse (fun e => by injection e)
  | CppTypeBase.SpecificNumeric _ _ _, CppTypeBase.BuiltInNumeric _ => Decidable.isFalse (fun e => by injection e)
  | CppTypeBase.SpecificNumeric _ _ _, CppTypeBase.PointerSizedInteger _ _ => Decidable.isFalse (fun e => by injection e)
  | CppTypeBase.SpecificNumeric _ _ _, CppTypeBase.Enum _ => Decidable.isFalse (fun e => by injection e)
  | CppTypeBase.SpecificNumeric _ _ _, CppTypeBase.Class _ _ => Decidable.isFalse (fun e => by injection e)
  | CppTypeBase.SpecificNumeric _ _ _, CppTypeBase.TemplateParameter _ _ => Decidable.isFalse (fun e => by injection e)
  | CppTypeBase.SpecificNumeric _ _ _, CppTypeBase.FunctionPointer _ _ _ => Decidable.isFalse (fun e => by injection e)
  | CppTypeBase.PointerSizedInteger _ _, CppTypeBase.Void => Decidable.isFalse (fun e => by injection e)
  | CppTypeBase.PointerSizedInteger _ _, CppTypeBase.BuiltInNumeric _ => Decidable.isFalse (fun e => by injection e)
  | CppTypeBase.PointerSizedInteger _ _, CppTypeBase.SpecificNumeric _ _ _ => Decidable.isFalse (fun e => by injection e)
  | CppTypeBase.PointerSizedInteger _ _, CppTypeBase.Enum _ => Decidable.isFalse (fun e => by injection e)
  | CppTypeBase.PointerSizedInteger _ _, CppTypeBase.Class _ _ => Decidable.isFalse (fun e => by injection e)
  | CppTypeBase.PointerSizedInteger _ _, CppTypeBase.TemplateParameter _ _ => Decidable.isFalse (fun e => by injection e)
  | CppTypeBase.PointerSizedInteger _ _, CppTypeBase.FunctionPointer _ _ _ => Decidable.isFalse (fun e => by injection e)
  | CppTypeBase.Enum _, CppTypeBase.Void => Decidable.isFalse (fun e => by injection e)
  | CppTypeBase.Enum _, CppTypeBase.BuiltInNumeric _ => Decidable.isFalse (fun e => by injection e)
  | CppTypeBase.Enum _, CppTypeBase.SpecificNumeric _ _ _ => Decidable.isFalse (fun e => by injection e)
  | CppTypeBase.Enum _, CppTypeBase.PointerSizedInteger _ _ => Decidable.isFalse (fun e => by injection e)
  | CppTypeBase.Enum _, CppTypeBase.Class _ _ => Decidable.isFalse (fun e => by injection e)
  | CppTypeBase.Enum _, CppTypeBase.TemplateParameter _ _ => Decidable.isFalse (fun e => by injection e)
  | CppTypeBase.Enum _, CppTypeBase.FunctionPointer _ _ _ => Decidable.isFalse (fun e => by injection e)
  | CppTypeBase.Class _ _, CppTypeBase.Void => Decidable.isFalse (fun e => by injection e)
  | CppTypeBase.Class _ _, CppTypeBase.BuiltInNumeric _ => Decidable.isFalse (fun e => by injection e)
  | CppTypeBase.Class _ _, CppTypeBase.SpecificNumeric _ _ _ => Decidable.isFalse (fun e => by injection e)
  | CppTypeBase.Class _ _, CppTypeBase.PointerSizedInteger _ _ => Decidable.isFalse (fun e => by injection e)
  | CppTypeBase.Class _ _, CppTypeBase.Enum _ => Decidable.isFalse (fun e => by injection e)
  | CppTypeBase.Class _ _, CppTypeBase.TemplateParameter _ _ => Decidable.isFalse (fun e => by injection e)
  | CppTypeBase.Class _ _, CppTypeBase.FunctionPointer _ _ _ => Decidable.isFalse (fun e => by injection e)
  | CppTypeBase.TemplateParameter _ _, CppTypeBase.Void => Decidable.isFalse (fun e => by injection e)
  | CppTypeBase.TemplateParameter _ _, CppTypeBase.BuiltInNumeric _ => Decidable.isFalse (fun e => by injection e)
  | CppTypeBase.TemplateParameter _ _, CppTypeBase.SpecificNumeric _ _ _ => Decidable.isFalse (fun e => by injection e)
  | CppTypeBase.TemplateParameter _ _, CppTypeBase.PointerSizedInteger _ _ => Decidable.isFalse (fun e => by injection e)
  | CppTypeBase.TemplateParameter _ _, CppTypeBase.Enum _ => Decidable.isFalse (fun e => by injection e)
  | CppTypeBase.TemplateParameter _ _, CppTypeBase.Class _ _ => Decidable.isFalse (fun e => by injection e)
  | CppTypeBase.TemplateParameter _ _, CppTypeBase.FunctionPointer _ _ _ => Decidable.isFalse (fun e => by injection e)
  | CppTypeBase.FunctionPointer _ _ _, CppTypeBase.Void => Decidable.isFalse (fun e => by injection e)
  | CppTypeBase.FunctionPointer _ _ _, CppTypeBase.BuiltInNumeric _ => Decidable.isFalse (fun e => by injection e)
  | CppTypeBase.FunctionPointer _ _ _, CppTypeBase.SpecificNumeric _ _ _ => Decidable.isFalse (fun e => by injection e)
  | CppTypeBase.FunctionPointer _ _ _, CppTypeBase.PointerSizedInteger _ _ => Decidable.isFalse (fun e => by injection e)
  | CppTypeBase.FunctionPointer _ _ _, CppTypeBase.Enum _ => Decidable.isFalse (fun e => by injection e)
  | CppTypeBase.FunctionPointer _ _ _, CppTypeBase.Class _ _ => Decidable.isFalse (fun e => by injection e)
  | CppTypeBase.FunctionPointer _ _ _, CppTypeBase.TemplateParameter _ _ => Decidable.isFalse (fun e => by injection e)
termination_by structural a => a

def decEqCppTypeArgsOpt : (a b : CppTypeArgsOpt) → Decidable (a = b)
  | CppTypeArgsOpt.none, CppTypeArgsOpt.none => Decidable.isTrue rfl
  | CppTypeArgsOpt.some l1, CppTypeArgsOpt.some l2 =>
    match decEqCppTypeList l1 l2 with
    | Decidable.isTrue h => Decidable.isTrue (by rw [h])
    | Decidable.isFalse h =>
      Decidable.isFalse (fun e => by injection e; exact h (by assumption))
  | CppTypeArgsOpt.none, CppTypeArgsOpt.some _ => Decidable.isFalse (fun e => by injection e)
  | CppTypeArgsOpt.some _, CppTypeArgsOpt.none => Decidable.isFalse (fun e => by injection e)
termination_by structural a => a

def decEqCppTypeList : (a b : CppTypeList) → Decidable (a = b)
  | CppTypeList.nil, CppTypeList.nil => Decidable.isTrue rfl
  | CppTypeList.cons h1 t1, CppTypeList.cons h2 t2 =>
    match decEqCppType h1 h2 with
    | Decidable.isTrue hh =>
      match decEqCppTypeList t1 t2 with
      | Decidable.isTrue ht => Decidable.isTrue (by rw [hh, ht])
      | Decidable.isFalse ht =>
        Decidable.isFalse (fun e => by injection e; exact ht (by assumption))
    | Decidable.isFalse hh =>
      Decidable.isFalse (fun e => by injection e; exact hh (by assumption))
  | CppTypeList.nil, CppTypeList.cons _ _ => Decidable.isFalse (fun e => by injection e)
  | CppTypeList.cons _ _, CppTypeList.nil => Decidable.isFalse (fun e => by injection e)
termination_by structural a => a

end

instance : DecidableEq CppType := decEqCppType

instance : DecidableEq CppTypeBase := decEqCppTypeBase

instance : DecidableEq CppTypeArgsOpt := decEqCppTypeArgsOpt

instance : DecidableEq CppTypeList := decEqCppTypeList

/-- The base-type component of a `CppType`. -/
def CppType.base : CppType → CppTypeBase
  | CppType.mk b _ _ _ => b

/-- Information about a base C++ class type (name plus optional template
arguments), used as the `class_type` of a method's class membership. -/
structure CppTypeClassBase where
  name : String
  template_arguments : CppTypeArgsOpt := CppTypeArgsOpt.none
deriving DecidableEq

/-- Visibility of a C++ entity. -/
inductive CppVisibility where
  | Public
  | Protected
  | Private
deriving DecidableEq

/-- Enumerator indicating special cases of C++ methods. -/
inductive CppMethodKind where
  | Regular
  | Constructor
  | Destructor
deriving DecidableEq

/-- Variation of a field accessor method. -/
inductive CppFieldAccessorType where
  | CopyGetter
  | ConstRefGetter
  | MutRefGetter
  | Setter
deriving DecidableEq

/-- Information about an automatically generated method. -/
inductive FakeCppMethod where
  | FieldAccessor (accessor_type : CppFieldAccessorType) (field_name : String)
deriving DecidableEq

/-- Information about an argument of a C++ method. -/
structure CppFunctionArgument where
  name : String
  argument_type : CppType
  has_default_value : Bool := false
deriving DecidableEq

/-- Information about a C++ class member method. -/
structure CppMethodClassMembership where
  class_type : CppTypeClassBase
  kind : CppMethodKind := CppMethodKind.Regular
  is_virtual : Bool := false
  is_pure_virtual : Bool := false
  is_const : Bool := false
  is_static : Bool := false
  visibility : CppVisibility := CppVisibility.Public
  is_signal : Bool := false
  is_slot : Bool := false
  fake : Option FakeCppMethod := Option.none
deriving DecidableEq

/-- Available types of C++ operators. -/
inductive CppOperator where
  | Conversion (t : CppType)
  | Assignment
  | Addition
  | Subtraction
  | UnaryPlus
  | UnaryMinus
  | Multiplication
  | Division
  | Modulo
  | PrefixIncrement
  | PostfixIncrement
  | PrefixDecrement
  | PostfixDecrement
  | EqualTo
  | NotEqualTo
  | GreaterThan
  | LessThan
  | GreaterThanOrEqualTo
  | LessThanOrEqualTo
  | LogicalNot
  | LogicalAnd
  | LogicalOr
  | BitwiseNot
  | BitwiseAnd
  | BitwiseOr
  | BitwiseXor
  | BitwiseLeftShift
  | BitwiseRightShift
  | AdditionAssignment
  | SubtractionAssignment
  | MultiplicationAssignment
  | DivisionAssignment
  | ModuloAssignment
  | BitwiseAndAssignment
  | BitwiseOrAssignment
  | BitwiseXorAssignment
  | BitwiseLeftShiftAssignment
  | BitwiseRightShiftAssignment
  | Subscript
  | Indirection
  | AddressOf
  | StructureDereference
  | PointerToMember
  | FunctionCall
  | Comma
  | New
  | NewArray
  | Delete
  | DeleteArray
deriving DecidableEq

/-- Information about template arguments of a C++ class type or method. -/
structure TemplateArgumentsDeclaration where
  nested_level : Int := 0
  names : List String := []
deriving DecidableEq

/-- Information about a C++ method. -/
structure CppMethod where
  name : String
  class_membership : Option CppMethodClassMembership := Option.none
  operator : Option CppOperator := Option.none
  return_type : CppType :=
    CppType.mk CppTypeBase.Void CppTypeIndirection.None false false
  arguments : List CppFunctionArgument := []
  arguments_before_omitting : Option (List CppFunctionArgument) := Option.none
  allows_variadic_arguments : Bool := false
  include_file : String := ""
  template_arguments : Option TemplateArgumentsDeclaration := Option.none
  template_arguments_values : Option (List CppType) := Option.none
  inheritance_chain : List CppType := []
  is_unsafe_static_cast : Bool := false
deriving DecidableEq

/-- Name of the class a member method belongs to (`CppMethod::class_name`). -/
def CppMethod.class_name (m : CppMethod) : Option String :=
  m.class_membership.map (fun mem => mem.class_type.name)

/-- Modelled from the spec: `CppMethod::argument_types_equal` (the method's
source file is not in the repository snapshot) — two methods have
identical argument types when the per-argument type lists coincide
(override/shadow rule: exact signature match). -/
def CppMethod.argument_types_equal (m1 m2 : CppMethod) : Bool :=
  (m1.arguments.map (fun a => a.argument_type))
    == (m2.arguments.map (fun a => a.argument_type))

/-- One item of a C++ enum declaration. -/
structure CppEnumValue where
  name : String
  value : Int
deriving DecidableEq

/-- Member field of a C++ class declaration. -/
structure CppClassField where
  name : String
  field_type : CppType
  visibility : CppVisibility := CppVisibility.Public
  size : Option Int := Option.none
deriving DecidableEq

/-- Information about a C++ type declaration. In this generation of the
code base the base-class list of a `Class` kind is a plain list of
`CppType`s (the generator reads each base's `.base` variant directly). -/
inductive CppTypeKind where
  | Enum (values : List CppEnumValue)
  | Class (bases : List CppType) (fields : List CppClassField)
      (template_arguments : Option TemplateArgumentsDeclaration)
deriving DecidableEq

/-- Information about a C++ type declaration together with its name and
declaring include file. -/
structure CppTypeData where
  name : String
  include_file : String := ""
  kind : CppTypeKind
deriving DecidableEq

/-- One template instantiation of a template class. -/
structure CppTemplateInstantiation where
  template_arguments : List CppType
deriving DecidableEq

/-- List of template instantiations of a template class. -/
structure CppTemplateInstantiations where
  class_name : String
  instantiations : List CppTemplateInstantiation
deriving DecidableEq

/-- C++ parser output: types, methods, template instantiations, signal
argument types, and the same data for each dependency library. The
`dependencies` field makes the type recursive, hence an inductive with
explicit accessors. -/
inductive CppData where
  | mk (types : List CppTypeData) (methods : List CppMethod)
      (template_instantiations : List CppTemplateInstantiations)
      (signal_argument_types : List (List CppType))
      (dependencies : List CppData)

/-- The type declarations of a `CppData`. -/
def CppData.types : CppData → List CppTypeData
  | CppData.mk ts _ _ _ _ => ts

/-- The methods of a `CppData`. -/
def CppData.methods : CppData → List CppMethod
  | CppData.mk _ ms _ _ _ => ms

/-- The template instantiations of a `CppData`. -/
def CppData.template_instantiations : CppData → List CppTemplateInstantiations
  | CppData.mk _ _ ti _ _ => ti

/-- The signal argument types of a `CppData`. -/
def CppData.signal_argument_types : CppData → List (List CppType)
  | CppData.mk _ _ _ sat _ => sat

/-- The dependency data sets of a `CppData`. -/
def CppData.dependencies : CppData → List CppData
  | CppData.mk _ _ _ _ deps => deps

/-! ## Inheritance resolver (`get_all_methods`, `get_pure_virtual_methods`) -/

/-- The methods of `data.methods` whose class name is `className`
(`own_methods` in the source). -/
def ownMethods (data : CppData) (className : String) : List CppMethod :=
  data.methods.filter (fun m => m.class_name == Option.some className)

/-- The shadowing test of the resolver's inner loop: an inherited method is
suppressed when some own method has the same name and identical argument
types. -/
def shadowedBy (own : List CppMethod) (method : CppMethod) : Bool :=
  (own.find? (fun m => m.name == method.name && m.argument_types_equal method)).isSome

/-- The base-class loop shared by `get_all_methods` and
`get_pure_virtual_methods`: for each base that is a class type, recursively
resolve it and keep the inherited methods not shadowed by an own method;
a base that is not a class type is passed over by the `if let`. -/
def collectBases (recurse : String → Except String (List CppMethod))
    (own : List CppMethod) : List CppType → Except String (List CppMethod)
  | [] => Except.ok []
  | b :: rest =>
    match b.base with
    | CppTypeBase.Class name _ =>
      match recurse name with
      | Except.error e => Except.error e
      | Except.ok ms =>
        match collectBases recurse own rest with
        | Except.error e => Except.error e
        | Except.ok rs =>
          Except.ok (ms.filter (fun method => !(shadowedBy own method)) ++ rs)
    | _ => collectBases recurse own rest

/-- Embedding of `CGenerator::get_all_methods`: own methods of the class plus the
unshadowed transitive methods of its class-type bases. The source recursion
has no cycle guard; fuel exhaustion and the source's `panic!` on a
non-class type entry are both `Except.error`. A class name without a type
entry contributes only its own methods (diagnostic, branch abandoned). -/
def getAllMethods (data : CppData) : Nat → String → Except String (List CppMethod)
  | 0, _ => Except.error "recursion limit exceeded"
  | Nat.succ fuel, className =>
    let own_methods := ownMethods data className
    match data.types.find? (fun t => t.name == className) with
    | Option.some type_info =>
      match type_info.kind with
      | CppTypeKind.Class bases _ _ =>
        match collectBases (getAllMethods data fuel) own_methods bases with
        | Except.error e => Except.error e
        | Except.ok inherited => Except.ok (inherited ++ own_methods)
      | _ => Except.error "get_all_methods: not a class"
    | Option.none => Except.ok own_methods

/-- Whether a method's class membership is marked pure virtual. The
source unwraps the membership; every element of `own_methods` has one, so
the `none` branch is unreachable there. -/
def isPureVirtual (m : CppMethod) : Bool :=
  match m.class_membership with
  | Option.some mem => mem.is_pure_virtual
  | Option.none => false

/-- Embedding of `CGenerator::get_pure_virtual_methods`: same traversal as
`get_all_methods` (shadowing tested against all own methods), but only the
pure-virtual own methods are appended. -/
def getPureVirtualMethods (data : CppData) : Nat → String → Except String (List CppMethod)
  | 0, _ => Except.error "recursion limit exceeded"
  | Nat.succ fuel, className =>
    let own_methods := ownMethods data className
    let own_pure_virtual := own_methods.filter isPureVirtual
    match data.types.find? (fun t => t.name == className) with
    | Option.some type_info =>
      match type_info.kind with
      | CppTypeKind.Class bases _ _ =>
        match collectBases (getPureVirtualMethods data fuel) own_methods bases with
        | Except.error e => Except.error e
        | Except.ok inherited => Except.ok (inherited ++ own_pure_virtual)
      | _ => Except.error "get_pure_virtual_methods: not a class"
    | Option.none => Except.ok own_pure_virtual

/-- The abstract-class computation of `CGenerator::generate_all`: the names
of the class-kind type declarations whose transitive pure-virtual method
set is non-empty, in declaration order. -/
def abstractClassesFrom (data : CppData) (fuel : Nat) :
    List CppTypeData → Except String (List String)
  | [] => Except.ok []
  | t :: rest =>
    match t.kind with
    | CppTypeKind.Class _ _ _ =>
      match getPureVirtualMethods data fuel t.name with
      | Except.error e => Except.error e
      | Except.ok pv =>
        match abstractClassesFrom data fuel rest with
        | Except.error e => Except.error e
        | Except.ok r =>
          Except.ok ((if pv.length > 0 then [t.name] else []) ++ r)
    | _ => abstractClassesFrom data fuel rest

/-- The abstract-class list over all type declarations of the library. -/
def abstractClasses (data : CppData) (fuel : Nat) : Except String (List String) :=
  abstractClassesFrom data fuel data.types

deriving instance DecidableEq for Except

/-! ## String order and helpers -/

/-- Lexicographic order on character lists (total order used to model
Rust's `String` ordering; on valid UTF-8, byte-wise order and
code-point-wise order agree). -/
def charListLe : List Char → List Char → Bool
  | [], _ => true
  | _ :: _, [] => false
  | a :: as, b :: bs => if a = b then charListLe as bs else decide (a < b)

/-- Total order on strings modelling Rust's `Ord for String`. -/
def strLe (a b : String) : Bool :=
  charListLe a.toList b.toList

/-- Removal of consecutive duplicates, modelling `Vec::dedup`. -/
def dedupConsec {α : Type} [DecidableEq α] : List α → List α
  | [] => []
  | [a] => [a]
  | a :: b :: rest =>
    if a = b then dedupConsec (b :: rest) else a :: dedupConsec (b :: rest)

/-! ## Include-file base name (`generate_all`, per-header loop) -/

/-- The per-header base-name derivation of `generate_all`: strip a final
`".h"` (two characters), leave any other name unchanged. Modelled on
`List Char` standing for the Rust byte string. -/
def includeFileBaseName (include_file : List Char) : List Char :=
  if List.isSuffixOf ['.', 'h'] include_file then
    include_file.take (include_file.length - 2)
  else include_file

/-! ## Build configuration merge (`cpp_build_config.rs`) -/

/-- Type of a C++ library (shared or static). -/
inductive CppLibraryType where
  | Shared
  | Static
deriving DecidableEq

/-- Platform-specific information required to build the C++ wrapper
library: one configuration item of `CppBuildConfig`. -/
structure CppBuildConfigData where
  linked_libs : List String := []
  linked_frameworks : List String := []
  compiler_flags : List String := []
  library_type : Option CppLibraryType := Option.none
deriving DecidableEq

/-- Embedding of `CppBuildConfigData::add_from`: concatenate the list-valued fields and
merge the library type, failing on a genuine conflict. -/
def CppBuildConfigData.add_from (self other : CppBuildConfigData) :
    Except String CppBuildConfigData :=
  let merged : CppBuildConfigData :=
    { linked_libs := self.linked_libs ++ other.linked_libs,
      linked_frameworks := self.linked_frameworks ++ other.linked_frameworks,
      compiler_flags := self.compiler_flags ++ other.compiler_flags,
      library_type := self.library_type }
  if self.library_type.isSome then
    if other.library_type.isSome && other.library_type != self.library_type then
      Except.error "conflicting library types specified"
    else Except.ok merged
  else Except.ok { merged with library_type := other.library_type }

/-- One conditional configuration item. Modelled from the spec: the
`target::Condition` type is not part of the snapshot, so a condition is an
arbitrary Boolean predicate over an abstract target type `T`. -/
structure CppBuildConfigItem (T : Type) where
  condition : T → Bool
  data : CppBuildConfigData

/-- A list of conditional configuration items. -/
structure CppBuildConfig (T : Type) where
  items : List (CppBuildConfigItem T) := []

/-- The item loop of `CppBuildConfig::eval`, starting from accumulator
`data`. -/
def CppBuildConfig.evalFrom {T : Type} (target : T) :
    CppBuildConfigData → List (CppBuildConfigItem T) → Except String CppBuildConfigData
  | data, [] => Except.ok data
  | data, item :: rest =>
    if item.condition target then
      match data.add_from item.data with
      | Except.error e => Except.error e
      | Except.ok d => CppBuildConfig.evalFrom target d rest
    else CppBuildConfig.evalFrom target data rest

/-- Embedding of `CppBuildConfig::eval`: combine all items whose condition holds on
`target`, starting from the default (empty) data. -/
def CppBuildConfig.eval {T : Type} (cfg : CppBuildConfig T) (target : T) :
    Except String CppBuildConfigData :=
  CppBuildConfig.evalFrom target {} cfg.items

/-! ## Per-header method processing (`process_methods`)

The operations that live outside the snapshot are parameters: `Cand` is the
type of one FFI candidate produced by `to_ffi_signatures` (the source's
`CppMethodWithFfiSignature`), `toFfi` is `CppMethod::to_ffi_signatures`,
`cBaseName` is `c_base_name`, `S` is `MethodCaptionStrategy`, `strategies`
is `MethodCaptionStrategy::all()` (spec: a fixed ordered list), and
`caption` computes a candidate's caption under a strategy. -/

/-- An output entry: a candidate paired with its final C symbol name (the
`cpp_method`/`c_name` pair of the source's `CppAndFfiMethod`). -/
structure CppAndFfiMethod (Cand : Type) where
  cpp_method : Cand
  c_name : String
deriving DecidableEq

/-- The per-method eligibility filter at the top of the `process_methods`
loop, in source order: constructors of abstract classes, private methods,
protected methods, signals, template methods, and methods of template
classes (by name or `::`-prefix) are dropped. -/
def eligibleMethod (abstract_classes template_classes : List String)
    (m : CppMethod) : Bool :=
  (match m.class_membership with
   | Option.some mem =>
     !(mem.kind = CppMethodKind.Constructor
        && abstract_classes.contains mem.class_type.name)
     && !(mem.visibility = CppVisibility.Private)
     && !(mem.visibility = CppVisibility.Protected)
     && !mem.is_signal
   | Option.none => true)
  && !m.template_arguments.isSome
  && (match m.class_name with
      | Option.some cn =>
        !(template_classes.any (fun x => x == cn || cn.startsWith (x ++ "::")))
      | Option.none => true)

/-- The `insert_into_hash` closure: append to an existing key's vector or
insert a fresh singleton (association list in insertion order standing for
the `HashMap`). -/
def insertIntoHash {Cand : Type} (hash : List (String × List Cand))
    (key : String) (value : Cand) : List (String × List Cand) :=
  if hash.any (fun p => p.1 == key) then
    hash.map (fun p => if p.1 == key then (p.1, p.2 ++ [value]) else p)
  else hash ++ [(key, [value])]

/-- Insert every candidate of one method's `to_ffi_signatures` result whose
`c_base_name` succeeds (a failure only skips that candidate). -/
def insertResults {Cand : Type} (cBaseName : Cand → String → Except String String)
    (include_file_base_name : String) :
    List (String × List Cand) → List Cand → List (String × List Cand)
  | hash, [] => hash
  | hash, r :: rest =>
    match cBaseName r include_file_base_name with
    | Except.error _ => insertResults cBaseName include_file_base_name hash rest
    | Except.ok name =>
      insertResults cBaseName include_file_base_name
        (insertIntoHash hash name r) rest

/-- The method loop of `process_methods`: filter, synthesize, group by
computed base name. -/
def buildGroupsFrom {Cand : Type} (abstract_classes template_classes : List String)
    (toFfi : CppMethod → Except String (List Cand))
    (cBaseName : Cand → String → Except String String)
    (include_file_base_name : String) :
    List (String × List Cand) → List CppMethod → List (String × List Cand)
  | hash, [] => hash
  | hash, m :: rest =>
    if eligibleMethod abstract_classes template_classes m then
      match toFfi m with
      | Except.error _ =>
        buildGroupsFrom abstract_classes template_classes toFfi cBaseName
          include_file_base_name hash rest
      | Except.ok results =>
        buildGroupsFrom abstract_classes template_classes toFfi cBaseName
          include_file_base_name
          (insertResults cBaseName include_file_base_name hash results) rest
    else
      buildGroupsFrom abstract_classes template_classes toFfi cBaseName
        include_file_base_name hash rest

/-- The groups (base name, candidates) built from a method list. -/
def buildGroups {Cand : Type} (abstract_classes template_classes : List String)
    (toFfi : CppMethod → Except String (List Cand))
    (cBaseName : Cand → String → Except String String)
    (include_file_base_name : String) (methods : List CppMethod) :
    List (String × List Cand) :=
  buildGroupsFrom abstract_classes template_classes toFfi cBaseName
    include_file_base_name [] methods

/-- The caption-distinctness test of the strategy loop: compute all
captions, sort them, remove consecutive duplicates, compare lengths. -/
def captionsDistinct {Cand S : Type} (caption : Cand → S → String) (s : S)
    (values : List Cand) : Bool :=
  let type_captions :=
    List.insertionSort (fun a b => strLe a b = true)
      (values.map (fun x => caption x s))
  (dedupConsec type_captions).length == values.length

/-- Processing of one base-name group: a singleton keeps the base name
unmodified; otherwise the first strategy with pairwise-distinct captions
names every member, and exhaustion of the strategy list is the source's
`panic!`. -/
def processGroup {Cand S : Type} (caption : Cand → S → String)
    (strategies : List S) (key : String) (values : List Cand) :
    Except String (List (CppAndFfiMethod Cand)) :=
  match values with
  | [v] => Except.ok [⟨v, key⟩]
  | _ =>
    match strategies.find? (fun s => captionsDistinct caption s values) with
    | Option.some strategy =>
      Except.ok (values.map (fun x =>
        ⟨x, key ++ (if (caption x strategy).isEmpty then "" else "_")
              ++ caption x strategy⟩))
    | Option.none => Except.error "all type caption strategies have failed!"

/-- The group loop of `process_methods`, in iteration order. -/
def processGroups {Cand S : Type} (caption : Cand → S → String)
    (strategies : List S) :
    List (String × List Cand) → Except String (List (CppAndFfiMethod Cand))
  | [] => Except.ok []
  | (key, values) :: rest =>
    match processGroup caption strategies key values with
    | Except.error e => Except.error e
    | Except.ok es =>
      match processGroups caption strategies rest with
      | Except.error e => Except.error e
      | Except.ok rs => Except.ok (es ++ rs)

/-- The final stable sort of the output by C symbol name
(`r.sort_by(|a, b| a.c_name.cmp(&b.c_name))`). -/
def sortByCName {Cand : Type} (r : List (CppAndFfiMethod Cand)) :
    List (CppAndFfiMethod Cand) :=
  List.insertionSort (fun a b => strLe a.c_name b.c_name = true) r

/-- Embedding of `CGenerator::process_methods`. The `mapOrder` parameter is the
iteration order of `hash1.into_iter()`; it is meaningful only when it
permutes the association list (hypotheses of the theorems below). -/
def processMethods {Cand S : Type} (abstract_classes template_classes : List String)
    (toFfi : CppMethod → Except String (List Cand))
    (cBaseName : Cand → String → Except String String)
    (caption : Cand → S → String) (strategies : List S)
    (include_file_base_name : String) (methods : List CppMethod)
    (mapOrder : List (String × List Cand) → List (String × List Cand)) :
    Except String (List (CppAndFfiMethod Cand)) :=
  let groups := mapOrder (buildGroups abstract_classes template_classes toFfi
    cBaseName include_file_base_name methods)
  match processGroups caption strategies groups with
  | Except.error e => Except.error e
  | Except.ok r => Except.ok (sortByCName r)

/-! ## Properties of the string order and of `dedupConsec` -/

/-- The data of the configuration items whose condition holds on the
target, in item order (spec: the matching fragments). -/
def matchingData {T : Type} (target : T) (items : List (CppBuildConfigItem T)) :
    List CppBuildConfigData :=
  (items.filter (fun i => i.condition target)).map (fun i => i.data)

/-- The library-type values actually set by a list of configuration data,
in order. -/
def setLibraryTypes (ds : List CppBuildConfigData) : List CppLibraryType :=
  ds.filterMap (fun d => d.library_type)

/-- The outcome contract of the configuration merge: an error means the
collected library types disagree, success carries the concatenated list
fields and the first set library type. -/
def EvalOutcomeSpec (res : Except String CppBuildConfigData)
    (lts : List CppLibraryType) (libs fws flags : List String) : Prop :=
  match res with
  | Except.error _ => ¬ (lts.Pairwise (· = ·))
  | Except.ok d =>
    lts.Pairwise (· = ·) ∧ d.linked_libs = libs ∧ d.linked_frameworks = fws
    ∧ d.compiler_flags = flags ∧ d.library_type = lts.head?

/-- A concrete three-item configuration (the third item does not match
target `0`). -/
def cfgW : CppBuildConfig Nat :=
  { items :=
      [ ⟨fun t => t == 0,
          { linked_libs := ["a"], library_type := Option.some CppLibraryType.Static }⟩,
        ⟨fun _ => true, { linked_libs := ["b"] }⟩,
        ⟨fun t => t == 1, { library_type := Option.some CppLibraryType.Shared }⟩ ] }

/-- Whether a type kind is a class kind. -/
def CppTypeKind.isClass : CppTypeKind → Bool
  | CppTypeKind.Class _ _ _ => true
  | _ => false

/-- The C++ type `int`. -/
def exInt : CppType :=
  CppType.mk (CppTypeBase.BuiltInNumeric CppBuiltInNumericType.Int)
    CppTypeIndirection.None false false

/-- A plain class type with the given name. -/
def exClassType (n : String) : CppType :=
  CppType.mk (CppTypeBase.Class n CppTypeArgsOpt.none)
    CppTypeIndirection.None false false

/-- Membership of a pure-virtual method of class `A`. -/
def exMemA : CppMethodClassMembership :=
  { class_type := { name := "A" }, is_virtual := true, is_pure_virtual := true }

/-- Membership of a plain method of class `B`. -/
def exMemB : CppMethodClassMembership :=
  { class_type := { name := "B" } }

/-- Membership of a constructor of class `B`. -/
def exMemBCtor : CppMethodClassMembership :=
  { class_type := { name := "B" }, kind := CppMethodKind.Constructor }

/-- Membership of a constructor of class `A`. -/
def exMemACtor : CppMethodClassMembership :=
  { class_type := { name := "A" }, kind := CppMethodKind.Constructor }

/-- Method `g(int)` of `A`, pure virtual. -/
def exGA : CppMethod :=
  { name := "g", class_membership := Option.some exMemA,
    arguments := [{ name := "x", argument_type := exInt }] }

/-- Method `g(int)` of `B` (same name and argument types as `A`'s). -/
def exGB : CppMethod :=
  { name := "g", class_membership := Option.some exMemB,
    arguments := [{ name := "x", argument_type := exInt }] }

/-- A constructor method of `B`. -/
def exCtorB : CppMethod :=
  { name := "B", class_membership := Option.some exMemBCtor }

/-- A constructor method of `A`. -/
def exCtorA : CppMethod :=
  { name := "A", class_membership := Option.some exMemACtor }

/-- Type entry of class `A` (no bases). -/
def exTA : CppTypeData :=
  { name := "A", kind := CppTypeKind.Class [] [] Option.none }

/-- Type entry of class `B`, deriving from `A`. -/
def exTB : CppTypeData :=
  { name := "B", kind := CppTypeKind.Class [exClassType "A"] [] Option.none }

/-- A two-class library: `B` derives from `A`; `A` declares pure-virtual
`g(int)`, `B` overrides it. -/
def exDataAB : CppData :=
  CppData.mk [exTA, exTB] [exGA, exGB] [] [] []

/-- Identity-style synthesis: one candidate per method, the method itself. -/
def toFfiId (m : CppMethod) : Except String (List CppMethod) :=
  Except.ok [m]

/-- Base name of a candidate: the method name. -/
def cBaseNameId (m : CppMethod) (_base : String) : Except String String :=
  Except.ok m.name

/-- A caption function that never discriminates. -/
def captionNone (_m : CppMethod) (_s : Nat) : String := ""

/-- A private method of class `X`. -/
def exMemPriv : CppMethodClassMembership :=
  { class_type := { name := "X" }, visibility := CppVisibility.Private }

/-- A public method of class `X`. -/
def exMemPub : CppMethodClassMembership :=
  { class_type := { name := "X" } }

/-- The private method `p()`. -/
def exPrivM : CppMethod :=
  { name := "p", class_membership := Option.some exMemPriv }

/-- The public method `q()`. -/
def exPubM : CppMethod :=
  { name := "q", class_membership := Option.some exMemPub }

/-- Whether a base entry is a class type. -/
def isClassBase (t : CppType) : Bool :=
  match t.base with
  | CppTypeBase.Class _ _ => true
  | _ => false

/-- A type entry with the non-class bases of a class removed. -/
def stripTypeData (t : CppTypeData) : CppTypeData :=
  match t.kind with
  | CppTypeKind.Class bases fields targs =>
    { t with kind := CppTypeKind.Class (bases.filter isClassBase) fields targs }
  | _ => t

/-- The library with every class's non-class bases removed. -/
def stripNonClassBases (data : CppData) : CppData :=
  CppData.mk (data.types.map stripTypeData) data.methods
    data.template_instantiations data.signal_argument_types data.dependencies

/-- A class whose only base is a template parameter, plus one own method. -/
def exTPType : CppType :=
  CppType.mk (CppTypeBase.TemplateParameter 0 0) CppTypeIndirection.None
    false false

/-- Method `h()` of `B`, plain. -/
def exHB : CppMethod :=
  { name := "h", class_membership := Option.some exMemB }

/-- Type entry of `B` with a non-class (template parameter) base. -/
def exTBtp : CppTypeData :=
  { name := "B", kind := CppTypeKind.Class [exTPType] [] Option.none }

/-- A one-class library whose class has a non-class base. -/
def exDataTP : CppData :=
  CppData.mk [exTBtp] [exHB] [] [] []

/-- An enum type entry and a library containing only it. -/
def exTEnum : CppTypeData :=
  { name := "E", kind := CppTypeKind.Enum [] }

/-- A library whose only type entry is an enum. -/
def exDataEnum : CppData :=
  CppData.mk [exTEnum] [] [] [] []

/-- A dependency library declaring class `A` with its pure-virtual
`g(int)`. -/
def exDepA : CppData :=
  CppData.mk [exTA] [exGA] [] [] []

/-- A library whose class `B` derives from `A`, where `A` is declared only
in a dependency. -/
def exDataDep : CppData :=
  CppData.mk [exTB] [] [] [] [exDepA]

/-- Synthesis producing three candidates for the method named `u`. -/
def toFfiT (m : CppMethod) : Except String (List Nat) :=
  if m.name == "u" then Except.ok [1, 2, 3] else Except.ok [4]

/-- Base names: candidate 1 gets `f_int`, the others `f`. -/
def cBaseT (c : Nat) (_base : String) : Except String String :=
  if c == 1 then Except.ok "f_int" else Except.ok "f"

/-- Captions: candidate 2 gets `int`, the others `x`. -/
def capT (c : Nat) (_s : Nat) : String :=
  if c == 2 then "int" else "x"

/-- The method named `u`. -/
def exMU : CppMethod := { name := "u" }

/-- The output of one group, with a failed group contributing nothing
(used only under an all-groups-succeed hypothesis). -/
def pgOut {Cand S : Type} (caption : Cand → S → String) (strategies : List S)
    (g : String × List Cand) : List (CppAndFfiMethod Cand) :=
  match processGroup caption strategies g.1 g.2 with
  | Except.ok es => es
  | Except.error _ => []

/-! ## Theorems -/

theorem charListLe_total : ∀ a b : List Char,
    charListLe a b = true ∨ charListLe b a = true := by
  intro a
  induction a with
  | nil => intro b; left; rfl
  | cons x xs ih =>
    intro b
    cases b with
    | nil => right; rfl
    | cons y ys =>
      by_cases h : x = y
      · subst h
        rcases ih ys with h1 | h1
        · left; simpa [charListLe] using h1
        · right; simpa [charListLe] using h1
      · rcases lt_or_gt_of_ne h with hlt | hgt
        · left; simp [charListLe, h, hlt]
        · right; simp [charListLe, Ne.symm h, hgt]

theorem charListLe_trans : ∀ a b c : List Char, charListLe a b = true →
    charListLe b c = true → charListLe a c = true := by
  intro a
  induction a with
  | nil => intro b c _ _; rfl
  | cons x xs ih =>
    intro b c hab hbc
    cases b with
    | nil => simp [charListLe] at hab
    | cons y ys =>
      cases c with
      | nil => simp [charListLe] at hbc
      | cons z zs =>
        by_cases hxy : x = y
        · subst hxy
          by_cases hyz : x = z
          · subst hyz
            simp only [charListLe, if_pos rfl] at hab hbc ⊢
            exact ih ys zs hab hbc
          · simp only [charListLe, if_pos rfl, if_neg hyz] at hbc ⊢
            exact hbc
        · by_cases hyz : y = z
          · subst hyz
            simp only [charListLe, if_neg hxy] at hab ⊢
            exact hab
          · simp only [charListLe, if_neg hxy, if_neg hyz,
              decide_eq_true_eq] at hab hbc
            have hxz : x < z := lt_trans hab hbc
            simp [charListLe, ne_of_lt hxz, hxz]

theorem charListLe_antisymm : ∀ a b : List Char, charListLe a b = true →
    charListLe b a = true → a = b := by
  intro a
  induction a with
  | nil =>
    intro b _ hba
    cases b with
    | nil => rfl
    | cons y ys => simp [charListLe] at hba
  | cons x xs ih =>
    intro b hab hba
    cases b with
    | nil => simp [charListLe] at hab
    | cons y ys =>
      by_cases hxy : x = y
      · subst hxy
        simp only [charListLe, if_pos rfl] at hab hba
        rw [ih ys hab hba]
      · simp only [charListLe, if_neg hxy, if_neg (Ne.symm hxy),
          decide_eq_true_eq] at hab hba
        exact absurd hba (lt_asymm hab)

theorem strLe_total (a b : String) : strLe a b = true ∨ strLe b a = true :=
  charListLe_total a.toList b.toList

theorem strLe_trans {a b c : String} (h1 : strLe a b = true)
    (h2 : strLe b c = true) : strLe a c = true :=
  charListLe_trans a.toList b.toList c.toList h1 h2

theorem strLe_antisymm {a b : String} (h1 : strLe a b = true)
    (h2 : strLe b a = true) : a = b :=
  String.toList_inj.mp (charListLe_antisymm a.toList b.toList h1 h2)

theorem dedupConsec_length_le {α : Type} [DecidableEq α] :
    ∀ l : List α, (dedupConsec l).length ≤ l.length := by
  intro l
  induction l with
  | nil => simp [dedupConsec]
  | cons a rest ih =>
    cases rest with
    | nil => simp [dedupConsec]
    | cons b rs =>
      by_cases h : a = b
      · simp only [dedupConsec, if_pos h]
        exact Nat.le_succ_of_le ih
      · simp only [dedupConsec, if_neg h, List.length_cons]
        exact Nat.succ_le_succ ih

theorem dedupConsec_length_eq_iff {α : Type} [DecidableEq α] :
    ∀ l : List α, (dedupConsec l).length = l.length ↔ l.Chain' (· ≠ ·) := by
  intro l
  induction l with
  | nil => simp [dedupConsec]
  | cons a rest ih =>
    cases rest with
    | nil => simp [dedupConsec]
    | cons b rs =>
      by_cases h : a = b
      · subst h
        simp only [dedupConsec, if_pos rfl, List.chain'_cons]
        constructor
        · intro hlen
          exact absurd hlen
            (Nat.ne_of_lt (Nat.lt_succ_of_le (dedupConsec_length_le _)))
        · intro hc
          exact absurd rfl hc.1
      · simp only [dedupConsec, if_neg h, List.length_cons, List.chain'_cons,
          Nat.succ.injEq]
        constructor
        · intro hlen
          exact ⟨h, (ih.mp hlen)⟩
        · intro hc
          exact ih.mpr hc.2

theorem chain'_conj {α : Type} {R T : α → α → Prop} :
    ∀ {l : List α}, l.Chain' R → l.Chain' T →
      l.Chain' (fun a b => R a b ∧ T a b) := by
  intro l
  induction l with
  | nil => intro _ _; exact List.chain'_nil
  | cons a rest ih =>
    cases rest with
    | nil => intro _ _; simp
    | cons b rs =>
      intro hR hT
      rw [List.chain'_cons] at hR hT ⊢
      exact ⟨⟨hR.1, hT.1⟩, ih hR.2 hT.2⟩

/-- A list sorted under a total, transitive, antisymmetric Boolean order
with pairwise-distinct neighbours has no duplicates at all. -/
theorem sorted_chain_ne_nodup {α : Type} {le : α → α → Bool}
    (hatrans : ∀ {a b c : α}, le a b = true → le b c = true → le a c = true)
    (hanti : ∀ {a b : α}, le a b = true → le b a = true → a = b)
    {l : List α} (hs : l.Sorted (fun a b => le a b = true))
    (hne : l.Chain' (· ≠ ·)) : l.Nodup := by
  have htrans : Transitive (fun a b : α => le a b = true ∧ a ≠ b) := by
    intro a b c hab hbc
    refine ⟨hatrans hab.1 hbc.1, ?_⟩
    intro hac
    subst hac
    exact hbc.2 (hanti hbc.1 hab.1)
  haveI : IsTrans α (fun a b : α => le a b = true ∧ a ≠ b) := ⟨htrans⟩
  have hchain : l.Chain' (fun a b => le a b = true ∧ a ≠ b) :=
    chain'_conj hs.chain' hne
  have hpair : l.Pairwise (fun a b => le a b = true ∧ a ≠ b) :=
    List.chain'_iff_pairwise.mp hchain
  exact hpair.imp (fun h => h.2)

/-- The source's sorted-dedup length test is exactly pairwise distinctness
of the captions. -/
theorem captionsDistinct_iff_nodup {Cand S : Type} (caption : Cand → S → String)
    (s : S) (values : List Cand) :
    captionsDistinct caption s values = true ↔
      (values.map (fun x => caption x s)).Nodup := by
  haveI : IsTotal String (fun a b => strLe a b = true) :=
    ⟨fun a b => strLe_total a b⟩
  haveI : IsTrans String (fun a b => strLe a b = true) :=
    ⟨fun _ _ _ h1 h2 => strLe_trans h1 h2⟩
  unfold captionsDistinct
  have hperm : List.Perm
      (List.insertionSort (fun a b => strLe a b = true)
        (values.map (fun x => caption x s)))
      (values.map (fun x => caption x s)) :=
    List.perm_insertionSort _ _
  have hsorted := List.sorted_insertionSort (fun a b => strLe a b = true)
    (values.map (fun x => caption x s))
  rw [beq_iff_eq]
  rw [show values.length = (values.map (fun x => caption x s)).length by
    rw [List.length_map]]
  rw [← hperm.length_eq]
  rw [dedupConsec_length_eq_iff]
  constructor
  · intro hchain
    exact hperm.nodup_iff.mp
      (@sorted_chain_ne_nodup String strLe
        (fun {a b c} h1 h2 => strLe_trans h1 h2)
        (fun {a b} h1 h2 => strLe_antisymm h1 h2) _ hsorted hchain)
  · intro hnodup
    exact List.Pairwise.chain' (hperm.nodup_iff.mpr hnodup)

/-! ## Helper lemmas for the disambiguator -/

theorem find_congruent {α : Type} {p q : α → Bool} :
    ∀ {l : List α}, (∀ a ∈ l, p a = q a) → l.find? p = l.find? q := by
  intro l
  induction l with
  | nil => intro _; rfl
  | cons a rest ih =>
    intro h
    simp only [List.find?_cons]
    rw [h a (List.mem_cons_self a rest)]
    cases q a
    · exact ih (fun x hx => h x (List.mem_cons_of_mem a hx))
    · rfl

theorem bool_eq_decide {b : Bool} {P : Prop} [Decidable P]
    (h : b = true ↔ P) : b = decide P := by
  by_cases hp : P
  · rw [decide_eq_true hp]
    exact h.mpr hp
  · rw [decide_eq_false hp]
    cases hb : b
    · rfl
    · exact absurd (h.mp hb) hp

/-- Reduction of `processGroup` on a group of two or more candidates. -/
theorem processGroup_ge_two {Cand S : Type} (caption : Cand → S → String)
    (strategies : List S) (key : String) {values : List Cand}
    (h2 : 2 ≤ values.length) :
    processGroup caption strategies key values =
      match strategies.find? (fun s => captionsDistinct caption s values) with
      | Option.some strategy =>
        Except.ok (values.map (fun x =>
          ⟨x, key ++ (if (caption x strategy).isEmpty then "" else "_")
                ++ caption x strategy⟩))
      | Option.none => Except.error "all type caption strategies have failed!" := by
  cases values with
  | nil => simp at h2
  | cons a tail =>
    cases tail with
    | nil => simp at h2
    | cons b rest => rfl

/-! ## Claim C9 -/

/-- C9: for every processed header, the derived base name is the
include-file name with its final two characters (the `".h"` suffix)
removed when the name ends with `".h"`, and is the include-file name
unchanged otherwise. -/
theorem includeFileBaseName_spec (s : List Char) :
    (List.isSuffixOf ['.', 'h'] s = true →
      includeFileBaseName s ++ ['.', 'h'] = s
      ∧ (includeFileBaseName s).length = s.length - 2)
    ∧ (List.isSuffixOf ['.', 'h'] s = false → includeFileBaseName s = s) := by
  constructor
  · intro h
    have hsuf : ['.', 'h'] <:+ s := List.isSuffixOf_iff_suffix.mp h
    have heq : s.take (s.length - 2) ++ ['.', 'h'] = s := by
      have h2 := List.suffix_iff_eq_append.mp hsuf
      exact h2
    have hbase : includeFileBaseName s = s.take (s.length - 2) := by
      simp [includeFileBaseName, h]
    refine ⟨by rw [hbase]; exact heq, ?_⟩
    rw [hbase]
    rcases hsuf with ⟨t, ht⟩
    subst ht
    simp
  · intro h
    simp [includeFileBaseName, h]

/-- Witness for C9 at two concrete headers: a `".h"` name is stripped of
exactly its last two characters and a `".hpp"` name is left unchanged. -/
theorem includeFileBaseName_spec_witness :
    includeFileBaseName "qobject.h".toList ++ ['.', 'h'] = "qobject.h".toList
    ∧ includeFileBaseName "window.hpp".toList = "window.hpp".toList :=
  ⟨((includeFileBaseName_spec "qobject.h".toList).1 (by decide)).1,
    (includeFileBaseName_spec "window.hpp".toList).2 (by decide)⟩

/-! ## Claim C3 -/

/-- C3: in each base-name group, a single candidate keeps the base name
unmodified; with two or more candidates the first strategy of the ordered
list under which all captions are pairwise distinct names the whole group,
and exhaustion of the strategy list is a fatal error (no numbering). -/
theorem processGroup_first_distinct_strategy_or_fatal {Cand S : Type}
    (caption : Cand → S → String) (strategies : List S) (key : String)
    (values : List Cand) :
    (∀ v, values = [v] →
      processGroup caption strategies key values = Except.ok [⟨v, key⟩])
    ∧ (2 ≤ values.length →
        processGroup caption strategies key values =
          match strategies.find?
              (fun s => decide ((values.map (fun x => caption x s)).Nodup)) with
          | Option.some s =>
            Except.ok (values.map (fun x =>
              ⟨x, key ++ (if (caption x s).isEmpty then "" else "_")
                    ++ caption x s⟩))
          | Option.none =>
            Except.error "all type caption strategies have failed!") := by
  constructor
  · intro v hv
    subst hv
    rfl
  · intro h2
    rw [processGroup_ge_two caption strategies key h2]
    rw [find_congruent (fun s _ =>
      bool_eq_decide (captionsDistinct_iff_nodup caption s values))]

/-- Witness for C3: a singleton group keeps its base name, and a concrete
two-element group is named by the first (only) strategy, whose captions
are distinct. -/
theorem processGroup_first_distinct_strategy_or_fatal_witness :
    processGroup (fun (c _ : Nat) => if c == 1 then "a" else "b") [0] "f" [7]
      = Except.ok [⟨7, "f"⟩]
    ∧ processGroup (fun (c _ : Nat) => if c == 1 then "a" else "b") [0] "f" [1, 2]
      = Except.ok [⟨1, "f_a"⟩, ⟨2, "f_b"⟩] := by
  constructor
  · exact (processGroup_first_distinct_strategy_or_fatal
      (fun (c _ : Nat) => if c == 1 then "a" else "b") [0] "f" [7]).1 7 rfl
  · rw [(processGroup_first_distinct_strategy_or_fatal
      (fun (c _ : Nat) => if c == 1 then "a" else "b") [0] "f" [1, 2]).2
      (by decide)]
    decide

/-! ## Claim C10 -/

/-- C10: in a disambiguated group, a candidate whose caption under the
adopted strategy is empty gets exactly the base name (no underscore), and
a non-empty caption is joined to the base name with an underscore. -/
theorem processGroup_empty_caption_no_separator {Cand S : Type}
    (caption : Cand → S → String) (strategies : List S) (key : String)
    {values : List Cand} {s : S} {out : List (CppAndFfiMethod Cand)} {x : Cand}
    (h2 : 2 ≤ values.length)
    (hs : strategies.find? (fun t => captionsDistinct caption t values)
      = Option.some s)
    (hout : processGroup caption strategies key values = Except.ok out)
    (hx : x ∈ values) :
    (caption x s = "" → (⟨x, key⟩ : CppAndFfiMethod Cand) ∈ out)
    ∧ (caption x s ≠ "" →
        (⟨x, key ++ "_" ++ caption x s⟩ : CppAndFfiMethod Cand) ∈ out) := by
  rw [processGroup_ge_two caption strategies key h2, hs] at hout
  have hout' : out = values.map (fun x =>
      ⟨x, key ++ (if (caption x s).isEmpty then "" else "_") ++ caption x s⟩) := by
    cases hout
    rfl
  subst hout'
  constructor
  · intro hemp
    exact List.mem_map.mpr ⟨x, hx, by
      simp [hemp, show ("" : String).isEmpty = true from rfl, String.append_empty]⟩
  · intro hne
    have hfalse : (caption x s).isEmpty = false := by
      cases hie : (caption x s).isEmpty
      · rfl
      · exact absurd ((String.isEmpty_iff (caption x s)).mp hie) hne
    exact List.mem_map.mpr ⟨x, hx, by simp [hfalse]⟩

/-- Witness for C10: in a concrete group one candidate has an empty
caption (symbol name is the bare base name) and the other a non-empty one
(underscore-joined). -/
theorem processGroup_empty_caption_no_separator_witness :
    (⟨1, "f"⟩ : CppAndFfiMethod Nat)
        ∈ [(⟨1, "f"⟩ : CppAndFfiMethod Nat), ⟨2, "f_x"⟩]
    ∧ (⟨2, "f_x"⟩ : CppAndFfiMethod Nat)
        ∈ [(⟨1, "f"⟩ : CppAndFfiMethod Nat), ⟨2, "f_x"⟩] := by
  constructor
  · exact (@processGroup_empty_caption_no_separator Nat Nat
      (fun (c _ : Nat) => if c == 1 then "" else "x") [0] "f" [1, 2] 0
      [⟨1, "f"⟩, ⟨2, "f_x"⟩] 1
      (by decide) (by decide) (by decide) (by decide)).1 rfl
  · exact (@processGroup_empty_caption_no_separator Nat Nat
      (fun (c _ : Nat) => if c == 1 then "" else "x") [0] "f" [1, 2] 0
      [⟨1, "f"⟩, ⟨2, "f_x"⟩] 2
      (by decide) (by decide) (by decide) (by decide)).2 (by decide)

/-! ## Claim C8 -/

/-- All elements of `a :: l` equal `a` twice over. -/
theorem pairwise_eq_cons_cons {α : Type} (a : α) (l : List α) :
    List.Pairwise (· = ·) (a :: a :: l) ↔ List.Pairwise (· = ·) (a :: l) := by
  simp only [List.pairwise_cons, List.mem_cons]
  constructor
  · intro h
    exact ⟨h.2.1, h.2.2⟩
  · intro h
    refine ⟨fun x hx => ?_, h⟩
    rcases hx with hx | hx
    · rw [hx]
    · exact h.1 x hx

theorem EvalOutcomeSpec_transfer {res : Except String CppBuildConfigData}
    {l1 l2 : List CppLibraryType} {a1 a2 b1 b2 c1 c2 : List String}
    (h1 : List.Pairwise (· = ·) l1 ↔ List.Pairwise (· = ·) l2)
    (h2 : l1.head? = l2.head?) (h3 : a1 = a2) (h4 : b1 = b2) (h5 : c1 = c2) :
    EvalOutcomeSpec res l1 a1 b1 c1 → EvalOutcomeSpec res l2 a2 b2 c2 := by
  cases res with
  | error e =>
    intro h
    exact fun hp => h (h1.mpr hp)
  | ok d =>
    intro h
    exact ⟨h1.mp h.1, h3 ▸ h.2.1, h4 ▸ h.2.2.1, h5 ▸ h.2.2.2.1,
      by rw [h.2.2.2.2, h2]⟩

/-- Uniform description of `CppBuildConfigData::add_from`: a conflict is an
error, otherwise the fields concatenate and the library type is the first
one set. -/
theorem add_from_eq (acc other : CppBuildConfigData) :
    acc.add_from other =
      if acc.library_type.isSome ∧ other.library_type.isSome
          ∧ other.library_type ≠ acc.library_type then
        Except.error "conflicting library types specified"
      else
        Except.ok (CppBuildConfigData.mk (acc.linked_libs ++ other.linked_libs)
          (acc.linked_frameworks ++ other.linked_frameworks)
          (acc.compiler_flags ++ other.compiler_flags)
          (acc.library_type.or other.library_type)) := by
  cases hacc : acc.library_type with
  | none =>
    simp [CppBuildConfigData.add_from, hacc, Option.or]
  | some a =>
    cases hoth : other.library_type with
    | none =>
      simp [CppBuildConfigData.add_from, hacc, hoth, Option.or]
    | some b =>
      by_cases hab : b = a
      · subst hab
        simp [CppBuildConfigData.add_from, hacc, hoth, Option.or]
      · have hne : Option.some b ≠ Option.some a := by
          intro hcontra
          exact hab (Option.some.injEq b a ▸ hcontra)
        simp [CppBuildConfigData.add_from, hacc, hoth, Option.or, hne, hab]

/-- Unfolding of `filterMap` over a cons, phrased with `Option.toList`. -/
theorem filterMap_cons_toList {α β : Type} (f : α → Option β) (a : α)
    (l : List α) :
    List.filterMap f (a :: l) = (f a).toList ++ List.filterMap f l := by
  cases hfa : f a <;> simp [List.filterMap_cons, hfa, Option.toList]

/-- Invariant of the item loop of `CppBuildConfig::eval`. -/
theorem evalFrom_spec {T : Type} (target : T) :
    ∀ (items : List (CppBuildConfigItem T)) (acc : CppBuildConfigData),
    EvalOutcomeSpec (CppBuildConfig.evalFrom target acc items)
      (acc.library_type.toList ++ setLibraryTypes (matchingData target items))
      (acc.linked_libs
        ++ ((matchingData target items).map (fun x => x.linked_libs)).flatten)
      (acc.linked_frameworks
        ++ ((matchingData target items).map (fun x => x.linked_frameworks)).flatten)
      (acc.compiler_flags
        ++ ((matchingData target items).map (fun x => x.compiler_flags)).flatten) := by
  intro items
  induction items with
  | nil =>
    intro acc
    simp only [CppBuildConfig.evalFrom, matchingData, setLibraryTypes,
      List.filter_nil, List.map_nil, List.filterMap_nil, List.append_nil,
      List.flatten_nil, EvalOutcomeSpec]
    refine ⟨?_, trivial, trivial, trivial, ?_⟩
    · cases acc.library_type <;> simp [Option.toList]
    · cases acc.library_type <;> simp [Option.toList]
  | cons item rest ih =>
    intro acc
    by_cases hcond : item.condition target
    · have hmd : matchingData target (item :: rest)
          = item.data :: matchingData target rest := by
        simp [matchingData, List.filter_cons, hcond]
      have hstep : CppBuildConfig.evalFrom target acc (item :: rest)
          = match acc.add_from item.data with
            | Except.error e => Except.error e
            | Except.ok d => CppBuildConfig.evalFrom target d rest := by
        simp [CppBuildConfig.evalFrom, hcond]
      rw [hstep, add_from_eq]
      by_cases hconf : acc.library_type.isSome ∧ item.data.library_type.isSome
          ∧ item.data.library_type ≠ acc.library_type
      · rw [if_pos hconf]
        rcases Option.isSome_iff_exists.mp hconf.1 with ⟨a, ha⟩
        rcases Option.isSome_iff_exists.mp hconf.2.1 with ⟨b, hb⟩
        have hab : b ≠ a := by
          intro hcontra
          exact hconf.2.2 (by rw [ha, hb, hcontra])
        show ¬ _
        rw [hmd]
        rw [setLibraryTypes, filterMap_cons_toList, ha, hb]
        intro hp
        rcases List.pairwise_cons.mp hp with ⟨hall, _⟩
        exact hab.symm (hall b (by simp [Option.toList]))
      · rw [if_neg hconf]
        have h := ih (CppBuildConfigData.mk
          (acc.linked_libs ++ item.data.linked_libs)
          (acc.linked_frameworks ++ item.data.linked_frameworks)
          (acc.compiler_flags ++ item.data.compiler_flags)
          (acc.library_type.or item.data.library_type))
        rw [hmd]
        refine EvalOutcomeSpec_transfer ?_ ?_ ?_ ?_ ?_ h
        · simp only [setLibraryTypes, filterMap_cons_toList]
          cases hacc : acc.library_type with
          | none => simp [Option.or]
          | some a =>
            cases hoth : item.data.library_type with
            | none => simp [Option.or, Option.toList]
            | some b =>
              have hba : b = a := by
                by_contra hne
                exact hconf ⟨by simp [hacc], by simp [hoth], by
                  rw [hacc, hoth]
                  intro hcontra
                  exact hne (Option.some.injEq b a ▸ hcontra)⟩
              subst hba
              simp only [Option.or, Option.toList, List.singleton_append,
                List.cons_append, List.nil_append]
              exact (pairwise_eq_cons_cons b _).symm
        · simp only [setLibraryTypes, filterMap_cons_toList]
          cases hacc : acc.library_type with
          | none => simp [Option.or]
          | some a =>
            cases hoth : item.data.library_type with
            | none => simp [Option.or, Option.toList]
            | some b => simp [Option.or, Option.toList]
        · simp [List.append_assoc]
        · simp [List.append_assoc]
        · simp [List.append_assoc]
    · have hmd : matchingData target (item :: rest) = matchingData target rest := by
        simp [matchingData, List.filter_cons, hcond]
      have hstep : CppBuildConfig.evalFrom target acc (item :: rest)
          = CppBuildConfig.evalFrom target acc rest := by
        simp [CppBuildConfig.evalFrom, hcond]
      rw [hstep, hmd]
      exact ih acc

/-- C8: `CppBuildConfig::eval` concatenates the list-valued fields of the
matching items in item order; it fails exactly when two matching items set
different library types, and otherwise the library type is the one set by
the matching items (or unset if none sets it). -/
theorem cppBuildConfig_eval_merge_spec {T : Type} (cfg : CppBuildConfig T)
    (target : T) :
    ((∃ e, cfg.eval target = Except.error e) ↔
      ¬ ((setLibraryTypes (matchingData target cfg.items)).Pairwise (· = ·)))
    ∧ (∀ d, cfg.eval target = Except.ok d →
        d.linked_libs
          = ((matchingData target cfg.items).map (fun x => x.linked_libs)).flatten
        ∧ d.linked_frameworks
          = ((matchingData target cfg.items).map (fun x => x.linked_frameworks)).flatten
        ∧ d.compiler_flags
          = ((matchingData target cfg.items).map (fun x => x.compiler_flags)).flatten
        ∧ d.library_type
          = (setLibraryTypes (matchingData target cfg.items)).head?) := by
  have h := evalFrom_spec target cfg.items {}
  have hempty : ({} : CppBuildConfigData).library_type = Option.none := rfl
  rw [hempty] at h
  have heval : cfg.eval target = CppBuildConfig.evalFrom target {} cfg.items := rfl
  cases hres : CppBuildConfig.evalFrom target {} cfg.items with
  | error e =>
    rw [hres] at h
    simp only [EvalOutcomeSpec, Option.toList, List.nil_append] at h
    constructor
    · constructor
      · intro _
        simpa using h
      · intro _
        exact ⟨e, by rw [heval, hres]⟩
    · intro d hd
      rw [heval, hres] at hd
      exact absurd hd (by simp)
  | ok d0 =>
    rw [hres] at h
    simp only [EvalOutcomeSpec, Option.toList, List.nil_append,
      List.append_nil] at h
    constructor
    · constructor
      · intro he
        rcases he with ⟨e, he⟩
        rw [heval, hres] at he
        exact absurd he (by simp)
      · intro hp
        exact absurd h.1 hp
    · intro d hd
      rw [heval, hres] at hd
      have hd0 : d0 = d := by
        cases hd
        rfl
      subst hd0
      exact h.2

/-- Witness for C8: on a concrete configuration and target the evaluation
succeeds with the concatenated libraries and the single set library type. -/
theorem cppBuildConfig_eval_merge_spec_witness :
    cfgW.eval 0 = Except.ok
      { linked_libs := ["a", "b"], linked_frameworks := [], compiler_flags := [],
        library_type := Option.some CppLibraryType.Static }
    ∧ ({ linked_libs := ["a", "b"], linked_frameworks := [], compiler_flags := [],
         library_type := Option.some CppLibraryType.Static } : CppBuildConfigData).library_type
      = (setLibraryTypes (matchingData 0 cfgW.items)).head? :=
  ⟨by decide,
    ((cppBuildConfig_eval_merge_spec cfgW 0).2
      { linked_libs := ["a", "b"], linked_frameworks := [], compiler_flags := [],
        library_type := Option.some CppLibraryType.Static } (by decide)).2.2.2⟩

/-! ## Provenance of pipeline output entries -/

theorem insertIntoHash_mem {Cand : Type} {hash : List (String × List Cand)}
    {key : String} {value : Cand} {k : String} {vs : List Cand} {v : Cand}
    (hmem : (k, vs) ∈ insertIntoHash hash key value) (hv : v ∈ vs) :
    (∃ vs', (k, vs') ∈ hash ∧ v ∈ vs') ∨ v = value := by
  unfold insertIntoHash at hmem
  by_cases hany : hash.any (fun p => p.1 == key)
  · rw [if_pos hany] at hmem
    rcases List.mem_map.mp hmem with ⟨p, hp, hfp⟩
    by_cases hpk : p.1 == key
    · rw [if_pos hpk] at hfp
      rw [Prod.mk.injEq] at hfp
      obtain ⟨hk, hvs⟩ := hfp
      rw [← hvs] at hv
      rcases List.mem_append.mp hv with hv1 | hv2
    
      · refine Or.inl ⟨p.2, ?_, hv1⟩
        rw [← hk, Prod.mk.eta]
        exact hp
      · right
        simpa using hv2
    · rw [if_neg hpk] at hfp
      exact Or.inl ⟨vs, hfp ▸ hp, hv⟩
  · rw [if_neg hany] at hmem
    rcases List.mem_append.mp hmem with h1 | h2
    · exact Or.inl ⟨vs, h1, hv⟩
    · have h3 : (k, vs) = (key, [value]) := by simpa using h2
      rw [Prod.mk.injEq] at h3
      rw [h3.2] at hv
      right
      simpa using hv

theorem insertResults_mem {Cand : Type}
    (cBaseName : Cand → String → Except String String) (base : String)
    (P : Cand → Prop) :
    ∀ (rs : List Cand) (hash : List (String × List Cand)),
    (∀ k vs v, (k, vs) ∈ hash → v ∈ vs → P v) → (∀ v ∈ rs, P v) →
    ∀ k vs v, (k, vs) ∈ insertResults cBaseName base hash rs → v ∈ vs → P v := by
  intro rs
  induction rs with
  | nil =>
    intro hash hh _ k vs v hm hv
    exact hh k vs v (by simpa [insertResults] using hm) hv
  | cons r rest ih =>
    intro hash hh hrs k vs v hm hv
    unfold insertResults at hm
    cases hcb : cBaseName r base with
    | error e =>
      rw [hcb] at hm
      exact ih hash hh (fun c hc => hrs c (List.mem_cons_of_mem r hc)) k vs v hm hv
    | ok name =>
      rw [hcb] at hm
      refine ih (insertIntoHash hash name r) ?_
        (fun c hc => hrs c (List.mem_cons_of_mem r hc)) k vs v hm hv
      intro k' vs' v' hm' hv'
      rcases insertIntoHash_mem hm' hv' with ⟨vs'', hvs'', hv''⟩ | hval
      · exact hh k' vs'' v' hvs'' hv''
      · rw [hval]
        exact hrs r (List.mem_cons_self r rest)

theorem buildGroupsFrom_mem {Cand : Type} (abs tmpl : List String)
    (toFfi : CppMethod → Except String (List Cand))
    (cBaseName : Cand → String → Except String String) (base : String) :
    ∀ (methods : List CppMethod) (hash : List (String × List Cand))
      (P : Cand → Prop),
    (∀ k vs v, (k, vs) ∈ hash → v ∈ vs → P v) →
    (∀ m ∈ methods, eligibleMethod abs tmpl m = true →
      ∀ rs, toFfi m = Except.ok rs → ∀ c ∈ rs, P c) →
    ∀ k vs v,
      (k, vs) ∈ buildGroupsFrom abs tmpl toFfi cBaseName base hash methods →
      v ∈ vs → P v := by
  intro methods
  induction methods with
  | nil =>
    intro hash P hh _ k vs v hm hv
    exact hh k vs v (by simpa [buildGroupsFrom] using hm) hv
  | cons m rest ih =>
    intro hash P hh hms k vs v hm hv
    unfold buildGroupsFrom at hm
    by_cases hel : eligibleMethod abs tmpl m = true
    · rw [if_pos hel] at hm
      cases hff : toFfi m with
      | error e =>
        rw [hff] at hm
        exact ih hash P hh
          (fun m' hm' => hms m' (List.mem_cons_of_mem m hm')) k vs v hm hv
      | ok results =>
        rw [hff] at hm
        refine ih (insertResults cBaseName base hash results) P ?_
          (fun m' hm' => hms m' (List.mem_cons_of_mem m hm')) k vs v hm hv
        intro k' vs' v' hm' hv'
        exact insertResults_mem cBaseName base P results hash hh
          (fun c hc => hms m (List.mem_cons_self m rest) hel results hff c hc)
          k' vs' v' hm' hv'
    · rw [if_neg hel] at hm
      exact ih hash P hh
        (fun m' hm' => hms m' (List.mem_cons_of_mem m hm')) k vs v hm hv

/-- Every candidate in the constructed groups stems from an eligible
method's successful synthesis. -/
theorem buildGroups_sources {Cand : Type} {abs tmpl : List String}
    {toFfi : CppMethod → Except String (List Cand)}
    {cBaseName : Cand → String → Except String String} {base : String}
    {methods : List CppMethod} {k : String} {vs : List Cand} {v : Cand}
    (hm : (k, vs) ∈ buildGroups abs tmpl toFfi cBaseName base methods)
    (hv : v ∈ vs) :
    ∃ m ∈ methods, eligibleMethod abs tmpl m = true
      ∧ ∃ rs, toFfi m = Except.ok rs ∧ v ∈ rs := by
  refine buildGroupsFrom_mem abs tmpl toFfi cBaseName base methods []
    (fun c => ∃ m ∈ methods, eligibleMethod abs tmpl m = true
      ∧ ∃ rs, toFfi m = Except.ok rs ∧ c ∈ rs) ?_ ?_ k vs v hm hv
  · intro k' vs' v' hm' _
    simp at hm'
  · intro m hmm hel rs hrs c hc
    exact ⟨m, hmm, hel, rs, hrs, hc⟩

theorem processGroup_sources {Cand S : Type} {caption : Cand → S → String}
    {strategies : List S} {key : String} {values : List Cand}
    {es : List (CppAndFfiMethod Cand)} {e : CppAndFfiMethod Cand}
    (hok : processGroup caption strategies key values = Except.ok es)
    (he : e ∈ es) : e.cpp_method ∈ values := by
  cases values with
  | nil =>
    unfold processGroup at hok
    cases hfind : strategies.find? (fun s => captionsDistinct caption s []) with
    | some s =>
      rw [hfind] at hok
      cases hok
      simp at he
    | none =>
      rw [hfind] at hok
      cases hok
  | cons a tail =>
    cases tail with
    | nil =>
      unfold processGroup at hok
      cases hok
      have he' : e = ⟨a, key⟩ := by simpa using he
      rw [he']
      simp
    | cons b rest =>
      unfold processGroup at hok
      cases hfind : strategies.find?
          (fun s => captionsDistinct caption s (a :: b :: rest)) with
      | some s =>
        rw [hfind] at hok
        cases hok
        rcases List.mem_map.mp he with ⟨x, hx, hxe⟩
        rw [← hxe]
        exact hx
      | none =>
        rw [hfind] at hok
        cases hok

theorem processGroups_sources {Cand S : Type} {caption : Cand → S → String}
    {strategies : List S} :
    ∀ {groups : List (String × List Cand)} {r : List (CppAndFfiMethod Cand)}
      {e : CppAndFfiMethod Cand},
    processGroups caption strategies groups = Except.ok r → e ∈ r →
    ∃ k vs, (k, vs) ∈ groups ∧ e.cpp_method ∈ vs := by
  intro groups
  induction groups with
  | nil =>
    intro r e hok he
    cases hok
    simp at he
  | cons g rest ih =>
    intro r e hok he
    unfold processGroups at hok
    cases hpg : processGroup caption strategies g.1 g.2 with
    | error er =>
      rw [hpg] at hok
      cases hok
    | ok es =>
      rw [hpg] at hok
      cases hrest : processGroups caption strategies rest with
      | error er =>
        rw [hrest] at hok
        cases hok
      | ok rs =>
        rw [hrest] at hok
        cases hok
        rcases List.mem_append.mp he with h1 | h2
        · exact ⟨g.1, g.2, by simp, processGroup_sources hpg h1⟩
        · rcases ih hrest h2 with ⟨k, vs, hkvs, hm⟩
          exact ⟨k, vs, List.mem_cons_of_mem g hkvs, hm⟩

/-- Master provenance lemma: every entry of a successful `processMethods`
output arises from an eligible input method via a successful synthesis. -/
theorem processMethods_output_source {Cand S : Type}
    {abs tmpl : List String} {toFfi : CppMethod → Except String (List Cand)}
    {cBaseName : Cand → String → Except String String}
    {caption : Cand → S → String} {strategies : List S} {base : String}
    {methods : List CppMethod}
    {mapOrder : List (String × List Cand) → List (String × List Cand)}
    {out : List (CppAndFfiMethod Cand)}
    (hperm : List.Perm
      (mapOrder (buildGroups abs tmpl toFfi cBaseName base methods))
      (buildGroups abs tmpl toFfi cBaseName base methods))
    (hout : processMethods abs tmpl toFfi cBaseName caption strategies base
      methods mapOrder = Except.ok out) :
    ∀ e ∈ out, ∃ m ∈ methods, eligibleMethod abs tmpl m = true
      ∧ ∃ rs, toFfi m = Except.ok rs ∧ e.cpp_method ∈ rs := by
  intro e he
  unfold processMethods at hout
  dsimp only [] at hout
  cases hpg : processGroups caption strategies
      (mapOrder (buildGroups abs tmpl toFfi cBaseName base methods)) with
  | error er =>
    rw [hpg] at hout
    cases hout
  | ok r =>
    rw [hpg] at hout
    cases hout
    have he' : e ∈ r := by
      unfold sortByCName at he
      exact (List.mem_insertionSort
        (fun a b : CppAndFfiMethod Cand => strLe a.c_name b.c_name = true)).mp he
    rcases processGroups_sources hpg he' with ⟨k, vs, hkvs, hm⟩
    exact buildGroups_sources (hperm.mem_iff.mp hkvs) hm

theorem eligibleMethod_membership_props {abs tmpl : List String}
    {m : CppMethod} {mem : CppMethodClassMembership}
    (h : eligibleMethod abs tmpl m = true)
    (hmem : m.class_membership = Option.some mem) :
    (mem.kind = CppMethodKind.Constructor → mem.class_type.name ∉ abs)
    ∧ mem.visibility ≠ CppVisibility.Private
    ∧ mem.visibility ≠ CppVisibility.Protected
    ∧ mem.is_signal = false := by
  unfold eligibleMethod at h
  rw [hmem] at h
  simp only [Bool.and_eq_true, Bool.not_eq_true', Bool.and_eq_false_iff,
    decide_eq_false_iff_not, decide_eq_true_eq] at h
  obtain ⟨⟨⟨⟨⟨h1, h2⟩, h3⟩, h4⟩, _⟩, _⟩ := h
  refine ⟨?_, h2, h3, h4⟩
  intro hk hin
  rcases h1 with h1 | h1
  · exact h1 hk
  · have h1' : mem.class_type.name ∉ abs := by simpa using h1
    exact h1' hin

theorem abstractClassesFrom_mem (data : CppData) (fuel : Nat) :
    ∀ (ts : List CppTypeData) (abs : List String),
    abstractClassesFrom data fuel ts = Except.ok abs →
    ∀ n, n ∈ abs ↔ ∃ t, t ∈ ts ∧ t.kind.isClass = true ∧ t.name = n
      ∧ ∃ pv, getPureVirtualMethods data fuel t.name = Except.ok pv
          ∧ pv ≠ [] := by
  intro ts
  induction ts with
  | nil =>
    intro abs hok n
    cases hok
    simp
  | cons t rest ih =>
    intro abs hok n
    unfold abstractClassesFrom at hok
    cases hkind : t.kind with
    | Enum values =>
      rw [hkind] at hok
      rw [ih abs hok n]
      constructor
      · rintro ⟨t', ht', hrest⟩
        exact ⟨t', List.mem_cons_of_mem t ht', hrest⟩
      · rintro ⟨t', ht', hclass, hrest⟩
        rcases List.mem_cons.mp ht' with ht' | ht'
        · rw [ht', hkind] at hclass
          simp [CppTypeKind.isClass] at hclass
        · exact ⟨t', ht', hclass, hrest⟩
    | Class bases fields targs =>
      rw [hkind] at hok
      cases hpv : getPureVirtualMethods data fuel t.name with
      | error e =>
        rw [hpv] at hok
        cases hok
      | ok pv =>
        rw [hpv] at hok
        cases hrest : abstractClassesFrom data fuel rest with
        | error e =>
          rw [hrest] at hok
          cases hok
        | ok r =>
          rw [hrest] at hok
          have habs : abs = (if pv.length > 0 then [t.name] else []) ++ r := by
            cases hok
            rfl
          subst habs
          constructor
          · intro hn
            rcases List.mem_append.mp hn with h1 | h1
            · by_cases hlen : pv.length > 0
              · rw [if_pos hlen] at h1
                have hnt : n = t.name := by simpa using h1
                refine ⟨t, List.mem_cons_self t rest, ?_, hnt.symm, pv, hpv, ?_⟩
                · rw [hkind]; rfl
                · intro hcontra
                  rw [hcontra] at hlen
                  simp at hlen
              · rw [if_neg hlen] at h1
                simp at h1
            · rcases (ih r hrest n).mp h1 with ⟨t', ht', hrest'⟩
              exact ⟨t', List.mem_cons_of_mem t ht', hrest'⟩
          · rintro ⟨t', ht', hclass, hname, pv', hpv', hne⟩
            rcases List.mem_cons.mp ht' with ht' | ht'
            · subst ht'
              rw [hpv] at hpv'
              have hpveq : pv = pv' := by
                cases hpv'
                rfl
              subst hpveq
              have hlen : pv.length > 0 := by
                cases pv
                · exact absurd rfl hne
                · simp
              rw [if_pos hlen]
              rw [← hname]
              simp
            · refine List.mem_append.mpr (Or.inr ?_)
              exact (ih r hrest n).mpr ⟨t', ht', hclass, hname, pv', hpv', hne⟩

/-! ## Claim C7 -/

/-- C7: a method whose class membership is private never appears in any
header's output method list, regardless of its other properties. -/
theorem private_methods_never_emitted {Cand S : Type} (methodOf : Cand → CppMethod)
    {abs tmpl : List String} {toFfi : CppMethod → Except String (List Cand)}
    {cBaseName : Cand → String → Except String String}
    {caption : Cand → S → String} {strategies : List S} {base : String}
    {methods : List CppMethod}
    {mapOrder : List (String × List Cand) → List (String × List Cand)}
    {out : List (CppAndFfiMethod Cand)}
    (htag : ∀ m rs c, toFfi m = Except.ok rs → c ∈ rs → methodOf c = m)
    (hperm : List.Perm
      (mapOrder (buildGroups abs tmpl toFfi cBaseName base methods))
      (buildGroups abs tmpl toFfi cBaseName base methods))
    (hout : processMethods abs tmpl toFfi cBaseName caption strategies base
      methods mapOrder = Except.ok out) :
    ∀ e ∈ out, ∀ mem,
      (methodOf e.cpp_method).class_membership = Option.some mem →
      mem.visibility ≠ CppVisibility.Private := by
  intro e he mem hmem
  rcases processMethods_output_source hperm hout e he with
    ⟨m, hm, hel, rs, hrs, hc⟩
  rw [htag m rs e.cpp_method hrs hc] at hmem
  exact (eligibleMethod_membership_props hel hmem).2.1

/-! ## Claim C1 -/

/-- C1: a class of the library is reported abstract exactly when its
transitive pure-virtual method set (resolved recursively with shadowing)
is non-empty, and no constructor of a class in the abstract set reaches
any header's output method list. -/
theorem abstract_iff_pure_virtual_and_constructors_dropped {Cand S : Type}
    (methodOf : Cand → CppMethod) (data : CppData) (fuel : Nat)
    {abs tmpl : List String} {toFfi : CppMethod → Except String (List Cand)}
    {cBaseName : Cand → String → Except String String}
    {caption : Cand → S → String} {strategies : List S} {base : String}
    {methods : List CppMethod}
    {mapOrder : List (String × List Cand) → List (String × List Cand)}
    {out : List (CppAndFfiMethod Cand)}
    (habs : abstractClasses data fuel = Except.ok abs)
    (htag : ∀ m rs c, toFfi m = Except.ok rs → c ∈ rs → methodOf c = m)
    (hperm : List.Perm
      (mapOrder (buildGroups abs tmpl toFfi cBaseName base methods))
      (buildGroups abs tmpl toFfi cBaseName base methods))
    (hout : processMethods abs tmpl toFfi cBaseName caption strategies base
      methods mapOrder = Except.ok out) :
    (∀ t ∈ data.types, t.kind.isClass = true →
      (t.name ∈ abs ↔
        ∃ pv, getPureVirtualMethods data fuel t.name = Except.ok pv ∧ pv ≠ []))
    ∧ (∀ e ∈ out, ∀ mem,
        (methodOf e.cpp_method).class_membership = Option.some mem →
        mem.kind = CppMethodKind.Constructor → mem.class_type.name ∉ abs) := by
  constructor
  · intro t ht hclass
    have hmem := abstractClassesFrom_mem data fuel data.types abs habs t.name
    constructor
    · intro hin
      rcases hmem.mp hin with ⟨t', ht', hclass', hname, pv, hpv, hne⟩
      rw [hname] at hpv
      exact ⟨pv, hpv, hne⟩
    · rintro ⟨pv, hpv, hne⟩
      exact hmem.mpr ⟨t, ht, hclass, rfl, pv, hpv, hne⟩
  · intro e he mem hmem hkind
    rcases processMethods_output_source hperm hout e he with
      ⟨m, hm, hel, rs, hrs, hc⟩
    rw [htag m rs e.cpp_method hrs hc] at hmem
    exact (eligibleMethod_membership_props hel hmem).1 hkind

/-! ## Concrete data used by witnesses and counterexamples -/

theorem toFfiId_tags : ∀ m rs c, toFfiId m = Except.ok rs → c ∈ rs →
    id c = m := by
  intro m rs c h hc
  cases h
  simpa using hc

/-- Witness for C7: running the pipeline on a private and a public method
keeps only the public one, whose visibility is (of course) not private. -/
theorem private_methods_never_emitted_witness :
    exMemPub.visibility ≠ CppVisibility.Private
    ∧ processMethods [] [] toFfiId cBaseNameId captionNone [0] "hdr"
        [exPrivM, exPubM] id
      = Except.ok [⟨exPubM, "q"⟩] :=
  ⟨@private_methods_never_emitted CppMethod Nat id [] [] toFfiId cBaseNameId
      captionNone [0] "hdr" [exPrivM, exPubM] id [⟨exPubM, "q"⟩]
      toFfiId_tags (List.Perm.refl _) (by decide)
      ⟨exPubM, "q"⟩ (by decide) exMemPub (by decide),
    by decide⟩

/-- Witness for C1: over the concrete library, `A` is abstract exactly
because its pure-virtual set is non-empty, and the surviving constructor
entry (of the non-abstract `B`) names a class outside the abstract set. -/
theorem abstract_iff_pure_virtual_and_constructors_dropped_witness :
    (("A" : String) ∈ ["A"] ↔
      ∃ pv, getPureVirtualMethods exDataAB 3 "A" = Except.ok pv ∧ pv ≠ [])
    ∧ ("B" : String) ∉ ["A"] := by
  have h := @abstract_iff_pure_virtual_and_constructors_dropped CppMethod Nat
    id exDataAB 3 ["A"] [] toFfiId cBaseNameId captionNone [0] "hdr"
    [exCtorA, exCtorB] id [⟨exCtorB, "B"⟩]
    (by decide) toFfiId_tags (List.Perm.refl _) (by decide)
  exact ⟨h.1 exTA (by decide) (by decide),
    h.2 ⟨exCtorB, "B"⟩ (by decide) exMemBCtor (by decide) (by decide)⟩

/-! ## Claim C5 -/

theorem sameSig_symm {m1 m2 : CppMethod}
    (h : (m1.name == m2.name && m1.argument_types_equal m2) = true) :
    (m2.name == m1.name && m2.argument_types_equal m1) = true := by
  simp only [Bool.and_eq_true, beq_iff_eq, CppMethod.argument_types_equal] at h ⊢
  exact ⟨h.1.symm, h.2.symm⟩

theorem collectBases_unshadowed
    {recurse : String → Except String (List CppMethod)}
    {own : List CppMethod} :
    ∀ {bases : List CppType} {inherited : List CppMethod},
    collectBases recurse own bases = Except.ok inherited →
    ∀ u ∈ inherited, shadowedBy own u = false := by
  intro bases
  induction bases with
  | nil =>
    intro inherited hok u hu
    cases hok
    simp at hu
  | cons b rest ih =>
    intro inherited hok u hu
    cases b with
    | mk bb ind ic1 ic2 =>
      cases bb
      case Class name targs =>
        simp only [collectBases, CppType.base] at hok
        cases hrec : recurse name with
        | error e =>
          rw [hrec] at hok
          cases hok
        | ok ms =>
          rw [hrec] at hok
          cases hrest : collectBases recurse own rest with
          | error e =>
            rw [hrest] at hok
            cases hok
          | ok rs =>
            rw [hrest] at hok
            cases hok
            rcases List.mem_append.mp hu with h1 | h1
            · have := List.of_mem_filter h1
              simpa using this
            · exact ih hrest u h1
      all_goals exact ih (by simpa only [collectBases, CppType.base] using hok) u hu

/-- A successful `get_all_methods` result is an unshadowed inherited part
followed by the class's own methods. -/
theorem getAllMethods_decompose {data : CppData} {fuel : Nat} {B : String}
    {res : List CppMethod}
    (hres : getAllMethods data fuel B = Except.ok res) :
    ∃ inherited, res = inherited ++ ownMethods data B
      ∧ ∀ u ∈ inherited, shadowedBy (ownMethods data B) u = false := by
  cases fuel with
  | zero => cases hres
  | succ fuel =>
    unfold getAllMethods at hres
    dsimp only [] at hres
    cases hfind : data.types.find? (fun t => t.name == B) with
    | some type_info =>
      rw [hfind] at hres
      dsimp only [] at hres
      cases hkind : type_info.kind with
      | Enum values =>
        rw [hkind] at hres
        cases hres
      | Class bases fields targs =>
        rw [hkind] at hres
        dsimp only [] at hres
        cases hcb : collectBases (getAllMethods data fuel) (ownMethods data B)
            bases with
        | error e =>
          rw [hcb] at hres
          cases hres
        | ok inherited =>
          rw [hcb] at hres
          cases hres
          exact ⟨inherited, rfl, collectBases_unshadowed hcb⟩
    | none =>
      rw [hfind] at hres
      cases hres
      exact ⟨[], rfl, by simp⟩

/-- C5: when class `B` declares a method with the same name and identical
argument types as an inherited one, resolving `B`'s method set keeps
exactly `B`'s own declaration and never the inherited copy: the matching
entries of the result are exactly the matching own declarations of `B`
(here: the single method `gB`). -/
theorem override_shadowing_unique (data : CppData) (fuel : Nat) (B : String)
    (gB : CppMethod) (res : List CppMethod)
    (hres : getAllMethods data fuel B = Except.ok res)
    (hgB : (ownMethods data B).filter
      (fun m => m.name == gB.name && m.argument_types_equal gB) = [gB]) :
    res.filter (fun m => m.name == gB.name && m.argument_types_equal gB)
      = [gB] := by
  rcases getAllMethods_decompose hres with ⟨inherited, hsplit, hunsh⟩
  subst hsplit
  rw [List.filter_append, hgB]
  have hnil : inherited.filter
      (fun m => m.name == gB.name && m.argument_types_equal gB) = [] := by
    rw [List.filter_eq_nil_iff]
    intro u hu hp
    have hgBmem : gB ∈ ownMethods data B := by
      have : gB ∈ (ownMethods data B).filter
          (fun m => m.name == gB.name && m.argument_types_equal gB) := by
        rw [hgB]
        simp
      exact List.mem_of_mem_filter this
    have hshadow := hunsh u hu
    unfold shadowedBy at hshadow
    cases hfq : (ownMethods data B).find?
        (fun m => m.name == u.name && m.argument_types_equal u) with
    | none =>
      exact absurd (sameSig_symm hp) (List.find?_eq_none.mp hfq gB hgBmem)
    | some m =>
      rw [hfq] at hshadow
      simp at hshadow
  rw [hnil, List.nil_append]

/-- Witness for C5: over the concrete hierarchy (`B` overrides `A`'s
`g(int)`), the resolved method set of `B` contains exactly one `g(int)`,
the one declared by `B`. -/
theorem override_shadowing_unique_witness :
    getAllMethods exDataAB 3 "B" = Except.ok [exGB]
    ∧ ([exGB] : List CppMethod).filter
        (fun m => m.name == exGB.name && m.argument_types_equal exGB)
      = [exGB] :=
  ⟨by decide,
    override_shadowing_unique exDataAB 3 "B" exGB [exGB] (by decide) (by decide)⟩

/-! ## Claim C2 -/

/-- C2 counterexample: `B`'s base-specifier list contains a base that is
not a class type (a template parameter), yet resolving `B`'s method set
and pure-virtual set both succeed — the run is not aborted, contradicting
the claim that a non-class base is fatal. -/
theorem nonclass_base_not_fatal_counterexample :
    exTBtp.kind = CppTypeKind.Class [exTPType] [] Option.none
    ∧ exTPType.base = CppTypeBase.TemplateParameter 0 0
    ∧ getAllMethods exDataTP 2 "B" = Except.ok [exHB]
    ∧ getPureVirtualMethods exDataTP 2 "B" = Except.ok [] := by
  refine ⟨rfl, rfl, ?_, ?_⟩ <;> decide

theorem stripTypeData_name (t : CppTypeData) :
    (stripTypeData t).name = t.name := by
  unfold stripTypeData
  cases t.kind <;> rfl

theorem collectBases_congr {r1 r2 : String → Except String (List CppMethod)}
    (h : ∀ n, r1 n = r2 n) (own : List CppMethod) :
    ∀ bs, collectBases r1 own bs = collectBases r2 own bs := by
  intro bs
  induction bs with
  | nil => rfl
  | cons b rest ih =>
    cases b with
    | mk bb ind ic1 ic2 =>
      cases bb
      case Class name targs =>
        simp only [collectBases, CppType.base, h, ih]
      all_goals simpa only [collectBases, CppType.base] using ih

theorem collectBases_filter_classes
    (r : String → Except String (List CppMethod)) (own : List CppMethod) :
    ∀ bs, collectBases r own bs = collectBases r own (bs.filter isClassBase) := by
  intro bs
  induction bs with
  | nil => rfl
  | cons b rest ih =>
    cases b with
    | mk bb ind ic1 ic2 =>
      cases bb
      case Class name targs =>
        rw [show (CppType.mk (CppTypeBase.Class name targs) ind ic1 ic2 :: rest).filter
            isClassBase
          = CppType.mk (CppTypeBase.Class name targs) ind ic1 ic2
              :: rest.filter isClassBase from by
            simp [List.filter_cons, isClassBase, CppType.base]]
        simp only [collectBases, CppType.base, ih]
      all_goals
        rw [show (CppType.mk _ ind ic1 ic2 :: rest).filter isClassBase
          = rest.filter isClassBase from by
            simp [List.filter_cons, isClassBase, CppType.base]]
        simpa only [collectBases, CppType.base] using ih

theorem find_stripNonClassBases (data : CppData) (name : String) :
    (stripNonClassBases data).types.find? (fun t => t.name == name)
      = (data.types.find? (fun t => t.name == name)).map stripTypeData := by
  show (data.types.map stripTypeData).find? (fun t => t.name == name) = _
  rw [List.find?_map]
  have hcongr : ((fun t : CppTypeData => t.name == name) ∘ stripTypeData)
      = (fun t : CppTypeData => t.name == name) := by
    funext t
    simp [Function.comp, stripTypeData_name]
  rw [hcongr]

theorem getAllMethods_strip (data : CppData) :
    ∀ fuel name, getAllMethods data fuel name
      = getAllMethods (stripNonClassBases data) fuel name := by
  intro fuel
  induction fuel with
  | zero => intro name; rfl
  | succ fuel ih =>
    intro name
    have hown : ownMethods (stripNonClassBases data) name = ownMethods data name := rfl
    unfold getAllMethods
    dsimp only []
    rw [find_stripNonClassBases, hown]
    cases hfind : data.types.find? (fun t => t.name == name) with
    | none => rfl
    | some ti =>
      dsimp only [Option.map]
      cases hkind : ti.kind with
      | Enum values =>
        rw [show stripTypeData ti = ti from by unfold stripTypeData; rw [hkind]]
        rw [hkind]
      | Class bases fields targs =>
        rw [show (stripTypeData ti).kind
            = CppTypeKind.Class (bases.filter isClassBase) fields targs from by
          unfold stripTypeData
          rw [hkind]]
        dsimp only []
        rw [collectBases_congr ih (ownMethods data name) bases]
        rw [collectBases_filter_classes]

theorem getPureVirtualMethods_strip (data : CppData) :
    ∀ fuel name, getPureVirtualMethods data fuel name
      = getPureVirtualMethods (stripNonClassBases data) fuel name := by
  intro fuel
  induction fuel with
  | zero => intro name; rfl
  | succ fuel ih =>
    intro name
    have hown : ownMethods (stripNonClassBases data) name = ownMethods data name := rfl
    unfold getPureVirtualMethods
    dsimp only []
    rw [find_stripNonClassBases, hown]
    cases hfind : data.types.find? (fun t => t.name == name) with
    | none => rfl
    | some ti =>
      dsimp only [Option.map]
      cases hkind : ti.kind with
      | Enum values =>
        rw [show stripTypeData ti = ti from by unfold stripTypeData; rw [hkind]]
        rw [hkind]
      | Class bases fields targs =>
        rw [show (stripTypeData ti).kind
            = CppTypeKind.Class (bases.filter isClassBase) fields targs from by
          unfold stripTypeData
          rw [hkind]]
        dsimp only []
        rw [collectBases_congr ih (ownMethods data name) bases]
        rw [collectBases_filter_classes]

/-- C2 amended: a base that is not a class type is silently skipped —
resolution of every class is unchanged if all non-class bases are removed
from the input — and the resolver aborts only when the resolved name's own
type entry is not a class. -/
theorem nonclass_base_skipped_amended (data : CppData) :
    (∀ fuel name,
      getAllMethods data fuel name
        = getAllMethods (stripNonClassBases data) fuel name
      ∧ getPureVirtualMethods data fuel name
        = getPureVirtualMethods (stripNonClassBases data) fuel name)
    ∧ (∀ fuel name ti,
        data.types.find? (fun t => t.name == name) = Option.some ti →
        ti.kind.isClass = false →
        getAllMethods data (fuel + 1) name
            = Except.error "get_all_methods: not a class"
        ∧ getPureVirtualMethods data (fuel + 1) name
            = Except.error "get_pure_virtual_methods: not a class") := by
  constructor
  · intro fuel name
    exact ⟨getAllMethods_strip data fuel name,
      getPureVirtualMethods_strip data fuel name⟩
  · intro fuel name ti hfind hclass
    constructor
    · unfold getAllMethods
      dsimp only []
      rw [hfind]
      dsimp only []
      cases hkind : ti.kind with
      | Enum values => rfl
      | Class bases fields targs =>
        rw [hkind] at hclass
        simp [CppTypeKind.isClass] at hclass
    · unfold getPureVirtualMethods
      dsimp only []
      rw [hfind]
      dsimp only []
      cases hkind : ti.kind with
      | Enum values => rfl
      | Class bases fields targs =>
        rw [hkind] at hclass
        simp [CppTypeKind.isClass] at hclass

/-- Witness for the amended C2: on the concrete library the non-class base
is skipped (resolution equals resolution over the stripped input), and
resolving a name whose entry is an enum aborts. -/
theorem nonclass_base_skipped_amended_witness :
    (getAllMethods exDataTP 2 "B"
        = getAllMethods (stripNonClassBases exDataTP) 2 "B"
      ∧ getPureVirtualMethods exDataTP 2 "B"
        = getPureVirtualMethods (stripNonClassBases exDataTP) 2 "B")
    ∧ getAllMethods exDataEnum 1 "E"
        = Except.error "get_all_methods: not a class" :=
  ⟨(nonclass_base_skipped_amended exDataTP).1 2 "B",
    ((nonclass_base_skipped_amended exDataEnum).2 0 "E" exTEnum
      (by decide) (by decide)).1⟩

/-! ## Claim C6 -/

/-- C6 counterexample: `B`'s base `A` is declared (with a method) only in
a `dependencies` entry; the resolver does not find it and the branch
contributes nothing, contradicting the claim that dependency-declared
bases are resolved. -/
theorem dependencies_not_consulted_counterexample :
    exDataDep.dependencies = [exDepA]
    ∧ exDepA.types.find? (fun t => t.name == "A") = Option.some exTA
    ∧ exDepA.methods = [exGA]
    ∧ exDataDep.types.find? (fun t => t.name == "A") = Option.none
    ∧ getAllMethods exDataDep 3 "B" = Except.ok []
    ∧ getPureVirtualMethods exDataDep 3 "B" = Except.ok [] := by
  refine ⟨rfl, by decide, rfl, by decide, by decide, by decide⟩

theorem getAllMethods_deps_invariant (ts : List CppTypeData)
    (ms : List CppMethod) (tis : List CppTemplateInstantiations)
    (sat : List (List CppType)) (deps deps' : List CppData) :
    ∀ fuel name, getAllMethods (CppData.mk ts ms tis sat deps) fuel name
      = getAllMethods (CppData.mk ts ms tis sat deps') fuel name := by
  intro fuel
  induction fuel with
  | zero => intro name; rfl
  | succ fuel ih =>
    intro name
    unfold getAllMethods
    dsimp only [ownMethods, CppData.methods, CppData.types]
    cases hfind : ts.find? (fun t => t.name == name) with
    | none => rfl
    | some ti =>
      dsimp only []
      cases hkind : ti.kind with
      | Enum values => rfl
      | Class bases fields targs =>
        dsimp only []
        rw [collectBases_congr ih]

theorem getPureVirtualMethods_deps_invariant (ts : List CppTypeData)
    (ms : List CppMethod) (tis : List CppTemplateInstantiations)
    (sat : List (List CppType)) (deps deps' : List CppData) :
    ∀ fuel name, getPureVirtualMethods (CppData.mk ts ms tis sat deps) fuel name
      = getPureVirtualMethods (CppData.mk ts ms tis sat deps') fuel name := by
  intro fuel
  induction fuel with
  | zero => intro name; rfl
  | succ fuel ih =>
    intro name
    unfold getPureVirtualMethods
    dsimp only [ownMethods, CppData.methods, CppData.types]
    cases hfind : ts.find? (fun t => t.name == name) with
    | none => rfl
    | some ti =>
      dsimp only []
      cases hkind : ti.kind with
      | Enum values => rfl
      | Class bases fields targs =>
        dsimp only []
        rw [collectBases_congr ih]

/-- C6 amended: inheritance resolution never consults the `dependencies`
field (its result is invariant under replacing it), and a base name with
no entry in the top-level `types` list has its branch abandoned: only the
top-level own methods of that name are returned. -/
theorem resolver_ignores_dependencies_amended (ts : List CppTypeData)
    (ms : List CppMethod) (tis : List CppTemplateInstantiations)
    (sat : List (List CppType)) (deps deps' : List CppData) :
    (∀ fuel name,
      getAllMethods (CppData.mk ts ms tis sat deps) fuel name
        = getAllMethods (CppData.mk ts ms tis sat deps') fuel name
      ∧ getPureVirtualMethods (CppData.mk ts ms tis sat deps) fuel name
        = getPureVirtualMethods (CppData.mk ts ms tis sat deps') fuel name)
    ∧ (∀ (data : CppData) fuel name,
        data.types.find? (fun t => t.name == name) = Option.none →
        getAllMethods data (fuel + 1) name = Except.ok (ownMethods data name)
        ∧ getPureVirtualMethods data (fuel + 1) name
            = Except.ok ((ownMethods data name).filter isPureVirtual)) := by
  constructor
  · intro fuel name
    exact ⟨getAllMethods_deps_invariant ts ms tis sat deps deps' fuel name,
      getPureVirtualMethods_deps_invariant ts ms tis sat deps deps' fuel name⟩
  · intro data fuel name hfind
    constructor
    · unfold getAllMethods
      dsimp only []
      rw [hfind]
    · unfold getPureVirtualMethods
      dsimp only []
      rw [hfind]

/-- Witness for the amended C6: on the concrete library, replacing the
dependency list by the empty list does not change resolution, and
resolving the dependency-only name `A` at top level yields only its
(empty) top-level own methods. -/
theorem resolver_ignores_dependencies_amended_witness :
    (getAllMethods (CppData.mk [exTB] [] [] [] [exDepA]) 3 "B"
      = getAllMethods (CppData.mk [exTB] [] [] [] []) 3 "B")
    ∧ getAllMethods exDataDep 1 "A" = Except.ok (ownMethods exDataDep "A") :=
  ⟨((resolver_ignores_dependencies_amended [exTB] [] [] [] [exDepA] []).1
      3 "B").1,
    ((resolver_ignores_dependencies_amended [exTB] [] [] [] [exDepA]
        [exDepA]).2 exDataDep 0 "A" (by decide)).1⟩

/-! ## Claim C4 -/

/-- C4 counterexample: over identical input, two legitimate iteration
orders of the base-name map (identity and reversal, a permutation) give
different outputs: the singleton group `f_int` and the disambiguated
member `f` + caption `int` collide on the final symbol name `f_int`, and
the stable sort preserves their map-order-dependent relative order. -/
theorem hash_order_affects_output_counterexample :
    List.Perm
      (List.reverse (buildGroups [] [] toFfiT cBaseT "hdr" [exMU]))
      (buildGroups [] [] toFfiT cBaseT "hdr" [exMU])
    ∧ processMethods [] [] toFfiT cBaseT capT [0] "hdr" [exMU] id
        = Except.ok [⟨1, "f_int"⟩, ⟨2, "f_int"⟩, ⟨3, "f_x"⟩]
    ∧ processMethods [] [] toFfiT cBaseT capT [0] "hdr" [exMU] List.reverse
        = Except.ok [⟨2, "f_int"⟩, ⟨1, "f_int"⟩, ⟨3, "f_x"⟩]
    ∧ ([⟨1, "f_int"⟩, ⟨2, "f_int"⟩, ⟨3, "f_x"⟩] : List (CppAndFfiMethod Nat))
        ≠ [⟨2, "f_int"⟩, ⟨1, "f_int"⟩, ⟨3, "f_x"⟩] := by
  exact ⟨by decide, by decide, by decide, by decide⟩

theorem processGroups_ok_of_all {Cand S : Type} {caption : Cand → S → String}
    {strategies : List S} :
    ∀ {gs : List (String × List Cand)},
    (∀ g ∈ gs, ∃ es, processGroup caption strategies g.1 g.2 = Except.ok es) →
    processGroups caption strategies gs
      = Except.ok ((gs.map (pgOut caption strategies)).flatten) := by
  intro gs
  induction gs with
  | nil => intro _; rfl
  | cons g rest ih =>
    intro hall
    cases g with
    | mk key values =>
      rcases hall (key, values) (List.mem_cons_self _ _) with ⟨es, hes⟩
      unfold processGroups
      rw [hes, ih (fun g hg => hall g (List.mem_cons_of_mem _ hg))]
      simp only [List.map_cons, List.flatten_cons]
      rw [show pgOut caption strategies (key, values) = es from by
        unfold pgOut
        rw [hes]]

theorem processGroups_all_of_ok {Cand S : Type} {caption : Cand → S → String}
    {strategies : List S} :
    ∀ {gs : List (String × List Cand)} {r : List (CppAndFfiMethod Cand)},
    processGroups caption strategies gs = Except.ok r →
    ∀ g ∈ gs, ∃ es, processGroup caption strategies g.1 g.2 = Except.ok es := by
  intro gs
  induction gs with
  | nil =>
    intro r _ g hg
    simp at hg
  | cons g0 rest ih =>
    intro r hok g hg
    cases g0 with
    | mk key values =>
      unfold processGroups at hok
      cases hpg : processGroup caption strategies key values with
      | error e =>
        rw [hpg] at hok
        cases hok
      | ok es =>
        rw [hpg] at hok
        cases hrest : processGroups caption strategies rest with
        | error e =>
          rw [hrest] at hok
          cases hok
        | ok rs =>
          rcases List.mem_cons.mp hg with hg | hg
          · exact ⟨es, by rw [hg]; exact hpg⟩
          · exact ih hrest g hg

/-- C4 amended: the run's success and the output multiset are independent
of the hash-map iteration order, and the output sequence itself is
identical across iteration orders provided the final symbol names are
pairwise distinct; entries that share one final symbol name may appear in
map-iteration order (as the counterexample shows). -/
theorem processMethods_order_determinism_amended {Cand S : Type}
    (abs tmpl : List String) (toFfi : CppMethod → Except String (List Cand))
    (cBaseName : Cand → String → Except String String)
    (caption : Cand → S → String) (strategies : List S) (base : String)
    (methods : List CppMethod)
    (σ1 σ2 : List (String × List Cand) → List (String × List Cand))
    (h1 : List.Perm (σ1 (buildGroups abs tmpl toFfi cBaseName base methods))
      (buildGroups abs tmpl toFfi cBaseName base methods))
    (h2 : List.Perm (σ2 (buildGroups abs tmpl toFfi cBaseName base methods))
      (buildGroups abs tmpl toFfi cBaseName base methods)) :
    ((∃ l, processMethods abs tmpl toFfi cBaseName caption strategies base
        methods σ1 = Except.ok l)
      ↔ (∃ l, processMethods abs tmpl toFfi cBaseName caption strategies base
        methods σ2 = Except.ok l))
    ∧ (∀ l1 l2,
        processMethods abs tmpl toFfi cBaseName caption strategies base
          methods σ1 = Except.ok l1 →
        processMethods abs tmpl toFfi cBaseName caption strategies base
          methods σ2 = Except.ok l2 →
        List.Perm l1 l2
          ∧ ((l1.map (fun e => e.c_name)).Nodup → l1 = l2)) := by
  have hperm12 : List.Perm
      (σ1 (buildGroups abs tmpl toFfi cBaseName base methods))
      (σ2 (buildGroups abs tmpl toFfi cBaseName base methods)) :=
    h1.trans h2.symm
  constructor
  · constructor
    · rintro ⟨l, hl⟩
      unfold processMethods at hl ⊢
      dsimp only [] at hl ⊢
      cases hpg1 : processGroups caption strategies
          (σ1 (buildGroups abs tmpl toFfi cBaseName base methods)) with
      | error e =>
        rw [hpg1] at hl
        cases hl
      | ok r1 =>
        have hall := processGroups_all_of_ok hpg1
        have hall2 : ∀ g ∈ σ2 (buildGroups abs tmpl toFfi cBaseName base
            methods), ∃ es, processGroup caption strategies g.1 g.2
              = Except.ok es :=
          fun g hg => hall g (hperm12.mem_iff.mpr hg)
        rw [processGroups_ok_of_all hall2]
        exact ⟨_, rfl⟩
    · rintro ⟨l, hl⟩
      unfold processMethods at hl ⊢
      dsimp only [] at hl ⊢
      cases hpg2 : processGroups caption strategies
          (σ2 (buildGroups abs tmpl toFfi cBaseName base methods)) with
      | error e =>
        rw [hpg2] at hl
        cases hl
      | ok r2 =>
        have hall := processGroups_all_of_ok hpg2
        have hall1 : ∀ g ∈ σ1 (buildGroups abs tmpl toFfi cBaseName base
            methods), ∃ es, processGroup caption strategies g.1 g.2
              = Except.ok es :=
          fun g hg => hall g (hperm12.mem_iff.mp hg)
        rw [processGroups_ok_of_all hall1]
        exact ⟨_, rfl⟩
  · intro l1 l2 hl1 hl2
    unfold processMethods at hl1 hl2
    dsimp only [] at hl1 hl2
    cases hpg1 : processGroups caption strategies
        (σ1 (buildGroups abs tmpl toFfi cBaseName base methods)) with
    | error e =>
      rw [hpg1] at hl1
      cases hl1
    | ok r1 =>
      cases hpg2 : processGroups caption strategies
          (σ2 (buildGroups abs tmpl toFfi cBaseName base methods)) with
      | error e =>
        rw [hpg2] at hl2
        cases hl2
      | ok r2 =>
        rw [hpg1] at hl1
        rw [hpg2] at hl2
        have hl1' : l1 = sortByCName r1 := by
          cases hl1
          rfl
        have hl2' : l2 = sortByCName r2 := by
          cases hl2
          rfl
        have hr1 : r1 = ((σ1 (buildGroups abs tmpl toFfi cBaseName base
            methods)).map (pgOut caption strategies)).flatten := by
          have := processGroups_ok_of_all (processGroups_all_of_ok hpg1)
          rw [this] at hpg1
          cases hpg1
          rfl
        have hr2 : r2 = ((σ2 (buildGroups abs tmpl toFfi cBaseName base
            methods)).map (pgOut caption strategies)).flatten := by
          have := processGroups_ok_of_all (processGroups_all_of_ok hpg2)
          rw [this] at hpg2
          cases hpg2
          rfl
        have hrperm : List.Perm r1 r2 := by
          rw [hr1, hr2]
          exact List.Perm.flatten (hperm12.map (pgOut caption strategies))
        have hsort1 : List.Perm (sortByCName r1) r1 :=
          List.perm_insertionSort _ _
        have hsort2 : List.Perm (sortByCName r2) r2 :=
          List.perm_insertionSort _ _
        have hl12 : List.Perm l1 l2 := by
          rw [hl1', hl2']
          exact (hsort1.trans hrperm).trans hsort2.symm
        refine ⟨hl12, ?_⟩
        intro hnodup
        haveI : IsTotal (CppAndFfiMethod Cand)
            (fun a b => strLe a.c_name b.c_name = true) :=
          ⟨fun a b => strLe_total _ _⟩
        haveI : IsTrans (CppAndFfiMethod Cand)
            (fun a b => strLe a.c_name b.c_name = true) :=
          ⟨fun _ _ _ hab hbc => strLe_trans hab hbc⟩
        have hs1 : List.Sorted
            (fun a b : CppAndFfiMethod Cand => strLe a.c_name b.c_name = true)
            l1 := by
          rw [hl1']
          exact List.sorted_insertionSort _ r1
        have hs2 : List.Sorted
            (fun a b : CppAndFfiMethod Cand => strLe a.c_name b.c_name = true)
            l2 := by
          rw [hl2']
          exact List.sorted_insertionSort _ r2
        have hnodup2 : (l2.map (fun e => e.c_name)).Nodup := by
          have : List.Perm (l1.map (fun e => e.c_name))
              (l2.map (fun e => e.c_name)) := hl12.map _
          exact this.nodup_iff.mp hnodup
        have hpair1 : l1.Pairwise
            (fun a b : CppAndFfiMethod Cand => a.c_name ≠ b.c_name) :=
          List.pairwise_map.mp hnodup
        have hpair2 : l2.Pairwise
            (fun a b : CppAndFfiMethod Cand => a.c_name ≠ b.c_name) :=
          List.pairwise_map.mp hnodup2
        haveI : IsAntisymm (CppAndFfiMethod Cand)
            (fun a b => strLe a.c_name b.c_name = true ∧ a.c_name ≠ b.c_name) := by
          refine ⟨fun a b hab hba => ?_⟩
          exact absurd (strLe_antisymm hab.1 hba.1) hab.2
        exact List.eq_of_perm_of_sorted hl12 (hs1.and hpair1) (hs2.and hpair2)

/-- Witness for the amended C4: the two outputs of the counterexample's
iteration orders are a permutation of each other (the multiset is
order-independent even though the sequence is not). -/
theorem processMethods_order_determinism_amended_witness :
    List.Perm
      ([⟨1, "f_int"⟩, ⟨2, "f_int"⟩, ⟨3, "f_x"⟩] : List (CppAndFfiMethod Nat))
      [⟨2, "f_int"⟩, ⟨1, "f_int"⟩, ⟨3, "f_x"⟩] :=
  ((processMethods_order_determinism_amended [] [] toFfiT cBaseT capT [0]
      "hdr" [exMU] id List.reverse (List.Perm.refl _) (by decide)).2
    [⟨1, "f_int"⟩, ⟨2, "f_int"⟩, ⟨3, "f_x"⟩]
    [⟨2, "f_int"⟩, ⟨1, "f_int"⟩, ⟨3, "f_x"⟩]
    (by decide) (by decide)).1

